import Mathlib

/-!
Verification of the linguistic-atomization framework.

This file embeds the core atomization engine
(`src/.legacy/scripts/atomize_manuscript.py`), the three analysis modules
(`src/framework/analysis/{sentiment,temporal,entity}.py`) and the CLI
`analyze` command (`src/cli/main.py`) as Lean functions, and proves the
specification claims about them.

Strings are modelled as `List Char` (a Python `str` is its sequence of
characters).  The Python regular expressions used by the atomizer
(`^## (.+)$` with MULTILINE, `\n\n+`, `(?<=[.!?])\s+`, `\S+`) are embedded
as explicit character-list scanners with the same splitting semantics, kept
structurally recursive so that every function evaluates by `decide`.
-/

namespace LingAtom

/-- Python whitespace characters recognised by `\s` and `str.strip()`:
space, tab, newline, carriage return, vertical tab, form feed. -/
def isPySpace (c : Char) : Bool :=
  c == ' ' || c == '\t' || c == '\n' || c == '\r' || c == '\x0b' || c == '\x0c'

/-- Python `str.strip()`: remove leading and trailing whitespace. -/
def pyStrip (s : List Char) : List Char :=
  ((s.dropWhile isPySpace).reverse.dropWhile isPySpace).reverse

/-- Split into lines at `'\n'` (separators removed); `acc` holds the current
line reversed.  `linesAux [] s` always returns one more line than there are
newlines in `s`. -/
def linesAux (acc : List Char) : List Char → List (List Char)
  | [] => [acc.reverse]
  | c :: rest =>
    if c = '\n' then acc.reverse :: linesAux [] rest
    else linesAux (c :: acc) rest

/-- The lines of the text, in the sense of splitting at every `'\n'`. -/
def linesOf (s : List Char) : List (List Char) :=
  linesAux [] s

/-- Does a (newline-free) line match `^## (.+)$`, i.e. start with `"## "`
followed by at least one character? -/
def isHeadingLine (l : List Char) : Bool :=
  match l with
  | '#' :: '#' :: ' ' :: _ :: _ => true
  | _ => false

/-- `re.split(r'^## (.+)$', content, flags=re.MULTILINE)` processed line by
line: returns the piece before the first heading line and the list of
(captured title, following piece) pairs.  A matched heading line consumes
neither the `'\n'` before it (it ends the preceding piece) nor the `'\n'`
after it (it starts the following piece). -/
def partsAux : List (List Char) → List Char × List (List Char × List Char)
  | [] => ([], [])
  | l :: ls =>
    let r := partsAux ls
    let cont := (if ls.isEmpty then [] else ['\n']) ++ r.1
    if isHeadingLine l then
      ([], (l.drop 3, cont) :: r.2)
    else
      (l ++ cont, r.2)

/-- The heading split of the whole content: piece before the first heading,
then (title, body piece) pairs — the alternating flat list that `re.split`
produces when the pattern has one capturing group. -/
def partsOf (s : List Char) : List Char × List (List Char × List Char) :=
  partsAux (linesOf s)

/-- Is the head of the list a newline? -/
def headNewline (l : List Char) : Bool :=
  match l with
  | d :: _ => d == '\n'
  | [] => false

/-- Is the head of the list a Python whitespace character? -/
def headSpace (l : List Char) : Bool :=
  match l with
  | d :: _ => isPySpace d
  | [] => false

/-- One pass of `re.split(r'\n\n+', text)`: a match begins at a `'\n'`
immediately followed by another `'\n'` and greedily consumes the whole
newline run.  `skip` is true while inside a matched newline run; `acc` holds
the current piece reversed. -/
def splitParasAux (skip : Bool) (acc : List Char) : List Char → List (List Char)
  | [] => [acc.reverse]
  | c :: rest =>
    if skip && c == '\n' then
      splitParasAux true acc rest
    else if c == '\n' && headNewline rest then
      acc.reverse :: splitParasAux true [] rest
    else
      splitParasAux false (c :: acc) rest

/-- `re.split(r'\n\n+', text)`. -/
def splitParagraphs (s : List Char) : List (List Char) :=
  splitParasAux false [] s

/-- Sentence-terminal punctuation `[.!?]`. -/
def isSentPunct (c : Char) : Bool :=
  c == '.' || c == '!' || c == '?'

/-- One pass of `re.split(r'(?<=[.!?])\s+', text)`: a match is a whitespace
run directly after a `[.!?]` character; the punctuation stays with the left
piece and the whitespace run is consumed greedily.  `skip` is true while
inside a matched whitespace run; `acc` holds the current piece reversed. -/
def splitSentsAux (skip : Bool) (acc : List Char) : List Char → List (List Char)
  | [] => [acc.reverse]
  | c :: rest =>
    if skip && isPySpace c then
      splitSentsAux true acc rest
    else if isSentPunct c && headSpace rest then
      (c :: acc).reverse :: splitSentsAux true [] rest
    else
      splitSentsAux false (c :: acc) rest

/-- `re.split(r'(?<=[.!?])\s+', text)`. -/
def splitSentences (s : List Char) : List (List Char) :=
  splitSentsAux false [] s

/-- One pass of `re.findall(r'\S+', text)`: maximal runs of non-whitespace
characters.  `acc` holds the current partial word reversed. -/
def findWordsAux (acc : List Char) : List Char → List (List Char)
  | [] => if acc.isEmpty then [] else [acc.reverse]
  | c :: rest =>
    if isPySpace c then
      if acc.isEmpty then findWordsAux [] rest
      else acc.reverse :: findWordsAux [] rest
    else
      findWordsAux (c :: acc) rest

/-- `re.findall(r'\S+', text)`. -/
def findWords (s : List Char) : List (List Char) :=
  findWordsAux [] s

/-- Little-endian decimal digits with explicit fuel; any fuel at least the
argument yields the full digit list (`decDigitsFuel_adequate`). -/
def decDigitsFuel : Nat → Nat → List Nat
  | 0, _ => []
  | fuel + 1, n => if n = 0 then [] else (n % 10) :: decDigitsFuel fuel (n / 10)

/-- Little-endian decimal digits of `n` (empty for 0). -/
def decDigits (n : Nat) : List Nat :=
  decDigitsFuel n n

/-- The character of a decimal digit. -/
def digitCh (d : Nat) : Char :=
  Char.ofNat (48 + d)

/-- Python `str(n)` for a natural number: most-significant digit first. -/
def decChars (n : Nat) : List Char :=
  if n = 0 then ['0'] else ((decDigits n).map digitCh).reverse

/-- Python format `f"{n:0wd}"`: `str(n)` zero-padded on the left to width `w`. -/
def zfill (w n : Nat) : List Char :=
  List.replicate (w - (decChars n).length) '0' ++ decChars n

/-- `f"T{n:03d}"`. -/
def themeIdOf (n : Nat) : List Char := 'T' :: zfill 3 n

/-- `f"P{n:04d}"`. -/
def paraIdOf (n : Nat) : List Char := 'P' :: zfill 4 n

/-- `f"S{n:05d}"`. -/
def sentIdOf (n : Nat) : List Char := 'S' :: zfill 5 n

/-- `f"W{n:06d}"`. -/
def wordIdOf (n : Nat) : List Char := 'W' :: zfill 6 n

/-- `f"L{n:08d}"`. -/
def letterIdOf (n : Nat) : List Char := 'L' :: zfill 8 n

/-- A letter atom, as built by `atomize_manuscript`. -/
structure Letter where
  id : List Char
  char : Char
  word_id : List Char
  sentence_id : List Char
  paragraph_id : List Char
  theme_id : List Char
deriving DecidableEq, Repr

/-- A word atom. -/
structure Word where
  id : List Char
  text : List Char
  letter_count : Nat
  letters : List Letter
  sentence_id : List Char
  paragraph_id : List Char
  theme_id : List Char
deriving DecidableEq, Repr

/-- A sentence atom. -/
structure Sentence where
  id : List Char
  text : List Char
  word_count : Nat
  words : List Word
  paragraph_id : List Char
  theme_id : List Char
deriving DecidableEq, Repr

/-- A paragraph atom. -/
structure Paragraph where
  id : List Char
  text : List Char
  sentence_count : Nat
  sentences : List Sentence
  theme_id : List Char
deriving DecidableEq, Repr

/-- A theme atom. -/
structure Theme where
  id : List Char
  title : List Char
  text : List Char
  paragraph_count : Nat
  paragraphs : List Paragraph
deriving DecidableEq, Repr

/-- The `metadata` block of the atomization result. -/
structure Metadata where
  title : String
  author : String
  atomized_date : String
  hierarchy : String
  total_themes : Nat
  total_paragraphs : Nat
  total_sentences : Nat
  total_words : Nat
  total_letters : Nat
deriving DecidableEq, Repr

/-- The full result dictionary of `atomize_manuscript`. -/
structure AtomizeResult where
  metadata : Metadata
  themes : List Theme
deriving DecidableEq, Repr

/-- Result and updated letter counter of the letters loop. -/
structure LettersOut where
  ls : List Letter
  lc : Nat
deriving Repr

/-- The innermost loop of `atomize_manuscript`: one `Letter` per character
of the word, with the running global letter counter. -/
def buildLetters (tid pid sid wid : List Char) (lc : Nat) : List Char → LettersOut
  | [] => ⟨[], lc⟩
  | c :: rest =>
    let o := buildLetters tid pid sid wid (lc + 1) rest
    ⟨⟨letterIdOf lc, c, wid, sid, pid, tid⟩ :: o.ls, o.lc⟩

/-- Result and updated counters of the words loop. -/
structure WordsOut where
  ws : List Word
  wc : Nat
  lc : Nat
deriving Repr

/-- The words loop of `atomize_manuscript`. -/
def buildWords (tid pid sid : List Char) (wc lc : Nat) : List (List Char) → WordsOut
  | [] => ⟨[], wc, lc⟩
  | w :: rest =>
    let wid := wordIdOf wc
    let lo := buildLetters tid pid sid wid lc w
    let word : Word := ⟨wid, w, lo.ls.length, lo.ls, sid, pid, tid⟩
    let o := buildWords tid pid sid (wc + 1) lo.lc rest
    ⟨word :: o.ws, o.wc, o.lc⟩

/-- Result and updated counters of the sentences loop. -/
structure SentsOut where
  ss : List Sentence
  sc : Nat
  wc : Nat
  lc : Nat
deriving Repr

/-- The sentences loop of `atomize_manuscript`: pieces whose `strip()` is
empty are skipped without consuming an ID. -/
def buildSentences (tid pid : List Char) (sc wc lc : Nat) : List (List Char) → SentsOut
  | [] => ⟨[], sc, wc, lc⟩
  | p :: rest =>
    if (pyStrip p).isEmpty then
      buildSentences tid pid sc wc lc rest
    else
      let sid := sentIdOf sc
      let wo := buildWords tid pid sid wc lc (findWords p)
      let sent : Sentence := ⟨sid, p, wo.ws.length, wo.ws, pid, tid⟩
      let o := buildSentences tid pid (sc + 1) wo.wc wo.lc rest
      ⟨sent :: o.ss, o.sc, o.wc, o.lc⟩

/-- Result and updated counters of the paragraphs loop. -/
structure ParasOut where
  ps : List Paragraph
  pc : Nat
  sc : Nat
  wc : Nat
  lc : Nat
deriving Repr

/-- The paragraphs loop of `atomize_manuscript`: pieces whose `strip()` is
empty are skipped without consuming an ID. -/
def buildParagraphs (tid : List Char) (pc sc wc lc : Nat) : List (List Char) → ParasOut
  | [] => ⟨[], pc, sc, wc, lc⟩
  | p :: rest =>
    if (pyStrip p).isEmpty then
      buildParagraphs tid pc sc wc lc rest
    else
      let pid := paraIdOf pc
      let so := buildSentences tid pid sc wc lc (splitSentences p)
      let para : Paragraph := ⟨pid, p, so.ss.length, so.ss, tid⟩
      let o := buildParagraphs tid (pc + 1) so.sc so.wc so.lc rest
      ⟨para :: o.ps, o.pc, o.sc, o.wc, o.lc⟩

/-- Result and updated counters of the themes loop. -/
structure ThemesOut where
  ts : List Theme
  tc : Nat
  pc : Nat
  sc : Nat
  wc : Nat
  lc : Nat
deriving Repr

/-- The themes loop of `atomize_manuscript`, over the
(title piece, body piece) pairs of the heading split. -/
def buildThemes (tc pc sc wc lc : Nat) : List (List Char × List Char) → ThemesOut
  | [] => ⟨[], tc, pc, sc, wc, lc⟩
  | pr :: rest =>
    let tid := themeIdOf tc
    let ttl := pyStrip pr.1
    let txt := pyStrip pr.2
    let po := buildParagraphs tid pc sc wc lc (splitParagraphs txt)
    let th : Theme := ⟨tid, ttl, txt, po.ps.length, po.ps⟩
    let o := buildThemes (tc + 1) po.pc po.sc po.wc po.lc rest
    ⟨th :: o.ts, o.tc, o.pc, o.sc, o.wc, o.lc⟩

/-- `atomize_manuscript` from `src/.legacy/scripts/atomize_manuscript.py`,
applied to the file content.  The loop `for i in range(1, len(parts), 2)`
walks exactly the (title, body) pairs after the first piece, so the text
before the first heading (`parts[0]`) is never consumed. -/
def atomize_manuscript (content : List Char) : AtomizeResult :=
  let parts := partsOf content
  let o := buildThemes 1 1 1 1 1 parts.2
  { metadata :=
      { title := "Tomb of the Unknowns"
      , author := "Christopher Notarnicola"
      , atomized_date := "2025-11-20"
      , hierarchy := "theme → paragraph → sentence → word → letter"
      , total_themes := o.ts.length
      , total_paragraphs := o.pc - 1
      , total_sentences := o.sc - 1
      , total_words := o.wc - 1
      , total_letters := o.lc - 1 }
  , themes := o.ts }

/-! ### Lemmas about `findWords` (the `\S+` tokeniser) -/

theorem findWordsAux_nil (acc : List Char) :
    findWordsAux acc [] = if acc.isEmpty then [] else [acc.reverse] := rfl

theorem findWordsAux_cons_space_empty (c : Char) (l : List Char)
    (hc : isPySpace c = true) : findWordsAux [] (c :: l) = findWordsAux [] l := by
  simp [findWordsAux, hc]

theorem findWordsAux_cons_space_ne (acc : List Char) (c : Char) (l : List Char)
    (hc : isPySpace c = true) (ha : acc.isEmpty = false) :
    findWordsAux acc (c :: l) = acc.reverse :: findWordsAux [] l := by
  simp [findWordsAux, hc, ha]

theorem findWordsAux_cons_nonspace (acc : List Char) (c : Char) (l : List Char)
    (hc : isPySpace c = false) :
    findWordsAux acc (c :: l) = findWordsAux (c :: acc) l := by
  simp [findWordsAux, hc]

theorem findWordsAux_cons_space (acc : List Char) (c : Char) (l : List Char)
    (hc : isPySpace c = true) :
    findWordsAux acc (c :: l) =
      (if acc.isEmpty then [] else [acc.reverse]) ++ findWordsAux [] l := by
  cases ha : acc.isEmpty
  · rw [findWordsAux_cons_space_ne acc c l hc ha]; simp
  · have : acc = [] := List.isEmpty_eq_true.mp ha
    subst this
    rw [findWordsAux_cons_space_empty c l hc]; simp

theorem findWordsAux_nonspace_prefix (a : List Char) :
    ∀ acc l, (∀ c ∈ a, isPySpace c = false) →
      findWordsAux acc (a ++ l) = findWordsAux (a.reverse ++ acc) l := by
  induction a with
  | nil => intro acc l _; simp
  | cons x a' ih =>
    intro acc l h
    have hx : isPySpace x = false := h x (by simp)
    have h' : ∀ c ∈ a', isPySpace c = false := fun c hc => h c (by simp [hc])
    rw [List.cons_append, findWordsAux_cons_nonspace acc x _ hx, ih (x :: acc) l h']
    simp

theorem findWordsAux_trailing_space (a : List Char) :
    ∀ acc c, isPySpace c = true → findWordsAux acc (a ++ [c]) = findWordsAux acc a := by
  induction a with
  | nil =>
    intro acc c hc
    rw [List.nil_append, findWordsAux_cons_space acc c [] hc, findWordsAux_nil,
      findWordsAux_nil]
    simp
  | cons x a' ih =>
    intro acc c hc
    by_cases hx : isPySpace x
    · rw [List.cons_append, findWordsAux_cons_space acc x _ hx, ih [] c hc,
        findWordsAux_cons_space acc x a' hx]
    · simp only [Bool.not_eq_true] at hx
      rw [List.cons_append, findWordsAux_cons_nonspace acc x _ hx, ih (x :: acc) c hc,
        findWordsAux_cons_nonspace acc x a' hx]

theorem findWordsAux_space_split (a : List Char) :
    ∀ acc b c, isPySpace c = true →
      findWordsAux acc (a ++ c :: b) = findWordsAux acc (a ++ [c]) ++ findWordsAux [] b := by
  induction a with
  | nil =>
    intro acc b c hc
    rw [List.nil_append, List.nil_append, findWordsAux_cons_space acc c b hc,
      findWordsAux_cons_space acc c [] hc, findWordsAux_nil]
    simp
  | cons x a' ih =>
    intro acc b c hc
    by_cases hx : isPySpace x
    · rw [List.cons_append, findWordsAux_cons_space acc x _ hx, ih [] b c hc,
        List.cons_append, findWordsAux_cons_space acc x _ hx]
      simp
    · simp only [Bool.not_eq_true] at hx
      rw [List.cons_append, findWordsAux_cons_nonspace acc x _ hx, ih (x :: acc) b c hc,
        List.cons_append, findWordsAux_cons_nonspace acc x _ hx]

theorem findWords_space_mid (a b : List Char) (c : Char) (hc : isPySpace c = true) :
    findWords (a ++ c :: b) = findWords a ++ findWords b := by
  unfold findWords
  rw [findWordsAux_space_split a [] b c hc, findWordsAux_trailing_space a [] c hc]

theorem findWords_cons_space (b : List Char) (c : Char) (hc : isPySpace c = true) :
    findWords (c :: b) = findWords b := by
  have := findWords_space_mid [] b c hc
  simpa [findWords, findWordsAux] using this

theorem findWords_all_space (l : List Char) (h : ∀ c ∈ l, isPySpace c = true) :
    findWords l = [] := by
  induction l with
  | nil => rfl
  | cons c rest ih =>
    rw [findWords_cons_space rest c (h c (by simp))]
    exact ih fun c hc => h c (by simp [hc])

theorem findWords_append_space (a sp : List Char) (h : ∀ c ∈ sp, isPySpace c = true) :
    findWords (a ++ sp) = findWords a := by
  induction sp generalizing a with
  | nil => simp
  | cons c sp' ih =>
    rw [findWords_space_mid a sp' c (h c (by simp))]
    rw [findWords_all_space sp' fun c hc => h c (by simp [hc])]
    simp

theorem findWords_prepend_spaces (sp : List Char) :
    ∀ b, (∀ c ∈ sp, isPySpace c = true) → findWords (sp ++ b) = findWords b := by
  induction sp with
  | nil => intro b _; rfl
  | cons d sp' ih =>
    intro b h
    rw [List.cons_append, findWords_cons_space _ d (h d (by simp))]
    exact ih b fun c hc => h c (by simp [hc])

theorem findWords_space_run_mid (a sp b : List Char) (hne : sp ≠ [])
    (h : ∀ c ∈ sp, isPySpace c = true) :
    findWords (a ++ sp ++ b) = findWords a ++ findWords b := by
  cases sp with
  | nil => exact absurd rfl hne
  | cons c sp' =>
    have h1 : a ++ (c :: sp') ++ b = a ++ c :: (sp' ++ b) := by simp
    rw [h1, findWords_space_mid a _ c (h c (by simp))]
    rw [findWords_prepend_spaces sp' b fun c hc => h c (by simp [hc])]

theorem findWordsAux_members (l : List Char) :
    ∀ acc, (∀ c ∈ acc, isPySpace c = false) →
      ∀ w ∈ findWordsAux acc l, w ≠ [] ∧ ∀ c ∈ w, isPySpace c = false := by
  induction l with
  | nil =>
    intro acc hacc w hw
    by_cases ha : acc.isEmpty
    · simp [findWordsAux, ha] at hw
    · simp only [findWordsAux, ha, Bool.false_eq_true, if_false, List.mem_singleton] at hw
      subst hw
      refine ⟨?_, ?_⟩
      · simp only [ne_eq, List.reverse_eq_nil_iff]
        intro h; subst h; simp at ha
      · intro c hc; exact hacc c (List.mem_reverse.mp hc)
  | cons x l' ih =>
    intro acc hacc w hw
    by_cases hx : isPySpace x
    · by_cases ha : acc.isEmpty
      · simp only [findWordsAux, hx, ha, if_true] at hw
        exact ih [] (by simp) w hw
      · simp only [findWordsAux, hx, ha, if_true, Bool.false_eq_true, if_false,
          List.mem_cons] at hw
        rcases hw with hw | hw
        · subst hw
          refine ⟨?_, ?_⟩
          · simp only [ne_eq, List.reverse_eq_nil_iff]
            intro h; subst h; simp at ha
          · intro c hc; exact hacc c (List.mem_reverse.mp hc)
        · exact ih [] (by simp) w hw
    · simp only [Bool.not_eq_true] at hx
      simp only [findWordsAux, hx, Bool.false_eq_true, if_false] at hw
      refine ih (x :: acc) ?_ w hw
      intro c hc
      rcases List.mem_cons.mp hc with h1 | h2
      · subst h1; exact hx
      · exact hacc c h2

theorem findWords_members (s : List Char) :
    ∀ w ∈ findWords s, w ≠ [] ∧ ∀ c ∈ w, isPySpace c = false :=
  findWordsAux_members s [] (by simp)

theorem findWords_single (w : List Char) (hne : w ≠ [])
    (hsf : ∀ c ∈ w, isPySpace c = false) : findWords w = [w] := by
  have h1 : findWords (w ++ []) = findWordsAux (w.reverse ++ []) [] :=
    findWordsAux_nonspace_prefix w [] [] hsf
  simp only [List.append_nil] at h1
  rw [h1]
  have h2 : (w.reverse).isEmpty = false := by
    cases hw : w.reverse with
    | nil => exact absurd (by simpa using hw) hne
    | cons a t => rfl
  simp [findWordsAux, h2]

theorem flatMap_singleton_eq (l : List (List Char)) (g : List Char → List (List Char))
    (h : ∀ w ∈ l, g w = [w]) : l.flatMap g = l := by
  induction l with
  | nil => rfl
  | cons w l' ih =>
    simp only [List.flatMap_cons, h w (by simp)]
    rw [ih fun w hw => h w (by simp [hw])]
    rfl

theorem findWords_idem (x : List Char) : (findWords x).flatMap findWords = findWords x :=
  flatMap_singleton_eq _ _ fun w hw =>
    findWords_single w (findWords_members x w hw).1 (findWords_members x w hw).2

theorem findWords_intercalate (ws : List (List Char)) :
    findWords (List.intercalate [' '] ws) = ws.flatMap findWords := by
  induction ws with
  | nil => simp [List.intercalate, findWords, findWordsAux]
  | cons w ws' ih =>
    cases ws' with
    | nil => simp [List.intercalate]
    | cons v t =>
      have hstep : List.intercalate [' '] (w :: v :: t) =
          w ++ ' ' :: List.intercalate [' '] (v :: t) := by
        simp [List.intercalate, List.intersperse]
      rw [hstep, findWords_space_mid w _ ' ' (by simp [isPySpace]), ih]
      rfl

theorem findWords_dropWhile (s : List Char) :
    findWords (s.dropWhile isPySpace) = findWords s := by
  induction s with
  | nil => rfl
  | cons c rest ih =>
    by_cases hc : isPySpace c
    · rw [List.dropWhile_cons, if_pos hc, ih, findWords_cons_space rest c hc]
    · rw [List.dropWhile_cons, if_neg hc]

theorem findWords_pyStrip (s : List Char) : findWords (pyStrip s) = findWords s := by
  unfold pyStrip
  rw [← findWords_dropWhile s]
  set u := s.dropWhile isPySpace with hu
  have hsplit : (u.reverse.dropWhile isPySpace).reverse ++
      (u.reverse.takeWhile isPySpace).reverse = u := by
    rw [← List.reverse_append, List.takeWhile_append_dropWhile, List.reverse_reverse]
  conv_rhs => rw [← hsplit]
  rw [findWords_append_space]
  intro c hc
  exact List.mem_takeWhile_imp (List.mem_reverse.mp hc)

/-! ### The sentence and paragraph splitters preserve the word stream -/

theorem splitSentsAux_flatMap (l : List Char) :
    ∀ (skip : Bool) (acc : List Char), (skip = true → acc = []) →
      (splitSentsAux skip acc l).flatMap findWords = findWords (acc.reverse ++ l) := by
  induction l with
  | nil =>
    intro skip acc _
    simp [splitSentsAux]
  | cons c rest ih =>
    intro skip acc hsk
    by_cases h1 : (skip && isPySpace c) = true
    · obtain ⟨hskip, hc⟩ := Bool.and_eq_true_iff.mp h1
      have hacc : acc = [] := hsk hskip
      subst hacc
      simp only [splitSentsAux, h1, if_true]
      rw [ih true [] (fun _ => rfl)]
      simp only [List.reverse_nil, List.nil_append]
      rw [findWords_cons_space rest c hc]
    · by_cases h2 : (isSentPunct c && headSpace rest) = true
      · simp only [splitSentsAux, h1, Bool.false_eq_true, if_false, h2, if_true,
          List.flatMap_cons]
        rw [ih true [] (fun _ => rfl)]
        simp only [List.reverse_nil, List.nil_append, List.reverse_cons]
        obtain ⟨-, hhs⟩ := Bool.and_eq_true_iff.mp h2
        cases rest with
        | nil => simp [headSpace] at hhs
        | cons d rest' =>
          have hd : isPySpace d = true := by simpa [headSpace] using hhs
          have hsh : acc.reverse ++ c :: d :: rest' =
              (acc.reverse ++ [c]) ++ d :: rest' := by simp
          rw [hsh, findWords_space_mid _ rest' d hd, findWords_cons_space rest' d hd]
      · simp only [splitSentsAux, h1, Bool.false_eq_true, if_false, h2]
        rw [ih false (c :: acc) (by simp)]
        simp

theorem splitSentences_flatMap (s : List Char) :
    (splitSentences s).flatMap findWords = findWords s := by
  have := splitSentsAux_flatMap s false [] (by simp)
  simpa [splitSentences] using this

theorem splitParasAux_flatMap (l : List Char) :
    ∀ (skip : Bool) (acc : List Char), (skip = true → acc = []) →
      (splitParasAux skip acc l).flatMap findWords = findWords (acc.reverse ++ l) := by
  induction l with
  | nil =>
    intro skip acc _
    simp [splitParasAux]
  | cons c rest ih =>
    intro skip acc hsk
    by_cases h1 : (skip && c == '\n') = true
    · obtain ⟨hskip, hc⟩ := Bool.and_eq_true_iff.mp h1
      have hc' : c = '\n' := by simpa using hc
      have hacc : acc = [] := hsk hskip
      subst hacc
      simp only [splitParasAux, h1, if_true]
      rw [ih true [] (fun _ => rfl)]
      simp only [List.reverse_nil, List.nil_append]
      rw [findWords_cons_space rest c (by simp [hc', isPySpace])]
    · by_cases h2 : (c == '\n' && headNewline rest) = true
      · simp only [splitParasAux, h1, Bool.false_eq_true, if_false, h2, if_true,
          List.flatMap_cons]
        rw [ih true [] (fun _ => rfl)]
        simp only [List.reverse_nil, List.nil_append]
        obtain ⟨hc, hhn⟩ := Bool.and_eq_true_iff.mp h2
        have hc' : c = '\n' := by simpa using hc
        rw [findWords_space_mid acc.reverse rest c (by simp [hc', isPySpace])]
      · simp only [splitParasAux, h1, Bool.false_eq_true, if_false, h2]
        rw [ih false (c :: acc) (by simp)]
        simp

theorem splitParagraphs_flatMap (s : List Char) :
    (splitParagraphs s).flatMap findWords = findWords s := by
  have := splitParasAux_flatMap s false [] (by simp)
  simpa [splitParagraphs] using this

/-- Blank pieces (in the sense of Python truthiness of `strip()`) carry no
words, so filtering them out does not change the word stream. -/
theorem flatMap_filter_strip (l : List (List Char)) :
    (l.filter (fun q => !(pyStrip q).isEmpty)).flatMap findWords =
      l.flatMap findWords := by
  induction l with
  | nil => rfl
  | cons p l' ih =>
    by_cases hp : (pyStrip p).isEmpty
    · have hw : findWords p = [] := by
        have h0 : pyStrip p = [] := List.isEmpty_eq_true.mp hp
        rw [← findWords_pyStrip p, h0]
        rfl
      simp [List.filter_cons, hp, hw, ih]
    · have hp' : (pyStrip p).isEmpty = false := by
        cases h : (pyStrip p).isEmpty
        · rfl
        · exact absurd h hp
      simp [List.filter_cons, hp', ih]

/-! ### Decimal IDs: evaluation and injectivity -/

theorem decDigitsFuel_congr : ∀ f f' n, n ≤ f → n ≤ f' → decDigitsFuel f n = decDigitsFuel f' n := by
  intro f
  induction f with
  | zero =>
    intro f' n h1 h2
    have hn : n = 0 := Nat.le_zero.mp h1
    subst hn
    cases f' with
    | zero => rfl
    | succ f'' => simp [decDigitsFuel]
  | succ f ih =>
    intro f' n h1 h2
    cases f' with
    | zero =>
      have hn : n = 0 := Nat.le_zero.mp h2
      subst hn
      simp [decDigitsFuel]
    | succ f'' =>
      by_cases hn : n = 0
      · subst hn; simp [decDigitsFuel]
      · simp only [decDigitsFuel, hn, if_false]
        have hd : n / 10 < n := Nat.div_lt_self (Nat.pos_of_ne_zero hn) (by norm_num)
        rw [ih f'' (n / 10) (by omega) (by omega)]

theorem decDigits_eq (n : Nat) :
    decDigits n = if n = 0 then [] else (n % 10) :: decDigits (n / 10) := by
  by_cases hn : n = 0
  · subst hn; rfl
  · simp only [hn, if_false]
    unfold decDigits
    obtain ⟨m, rfl⟩ := Nat.exists_eq_succ_of_ne_zero hn
    simp only [decDigitsFuel, Nat.succ_ne_zero, if_false]
    have hd : (m + 1) / 10 < m + 1 := Nat.div_lt_self (Nat.succ_pos m) (by norm_num)
    rw [decDigitsFuel_congr m ((m + 1) / 10) ((m + 1) / 10) (by omega) (le_refl _)]

theorem decDigits_lt_ten (n : Nat) : ∀ d ∈ decDigits n, d < 10 := by
  induction n using Nat.strong_induction_on with
  | _ n ih =>
    intro d hd
    rw [decDigits_eq] at hd
    by_cases hn : n = 0
    · simp [hn] at hd
    · simp only [hn, if_false, List.mem_cons] at hd
      rcases hd with hd | hd
      · subst hd; exact Nat.mod_lt n (by norm_num)
      · exact ih (n / 10) (Nat.div_lt_self (Nat.pos_of_ne_zero hn) (by norm_num)) d hd

theorem decDigits_val (n : Nat) :
    (decDigits n).foldr (fun d a => 10 * a + d) 0 = n := by
  induction n using Nat.strong_induction_on with
  | _ n ih =>
    rw [decDigits_eq]
    by_cases hn : n = 0
    · simp [hn]
    · simp only [hn, if_false, List.foldr_cons]
      rw [ih (n / 10) (Nat.div_lt_self (Nat.pos_of_ne_zero hn) (by norm_num))]
      omega

/-- Reading a digit string back as a number (leading zeros are harmless). -/
def charsToNat (cs : List Char) : Nat :=
  cs.foldl (fun a c => 10 * a + (c.toNat - 48)) 0

theorem digitCh_toNat (d : Nat) (hd : d < 10) : (digitCh d).toNat = 48 + d := by
  interval_cases d <;> decide

theorem foldr_map_digitCh (l : List Nat) (hl : ∀ d ∈ l, d < 10) :
    (l.map digitCh).foldr (fun c a => 10 * a + (c.toNat - 48)) 0 =
      l.foldr (fun d a => 10 * a + d) 0 := by
  induction l with
  | nil => rfl
  | cons d l' ih =>
    simp only [List.map_cons, List.foldr_cons]
    rw [ih fun d hd => hl d (by simp [hd]), digitCh_toNat d (hl d (by simp))]
    omega

theorem charsToNat_decChars (n : Nat) : charsToNat (decChars n) = n := by
  by_cases hn : n = 0
  · subst hn; rfl
  · unfold charsToNat decChars
    simp only [hn, if_false]
    rw [List.foldl_reverse, foldr_map_digitCh (decDigits n) (decDigits_lt_ten n)]
    exact decDigits_val n

theorem charsToNat_zfill (w n : Nat) : charsToNat (zfill w n) = n := by
  unfold zfill charsToNat
  rw [List.foldl_append]
  have h0 : ∀ k, (List.replicate k '0').foldl (fun a c => 10 * a + (c.toNat - 48)) 0 = 0 := by
    intro k
    induction k with
    | zero => rfl
    | succ k ih => simpa [List.replicate_succ] using ih
  rw [h0]
  exact charsToNat_decChars n

theorem idOf_inj (c : Char) (w : Nat) : Function.Injective (fun n => c :: zfill w n) := by
  intro a b h
  have h2 : zfill w a = zfill w b := by
    injection h
  have := congrArg charsToNat h2
  rwa [charsToNat_zfill, charsToNat_zfill] at this

theorem themeIdOf_inj : Function.Injective themeIdOf := idOf_inj 'T' 3

theorem paraIdOf_inj : Function.Injective paraIdOf := idOf_inj 'P' 4

theorem sentIdOf_inj : Function.Injective sentIdOf := idOf_inj 'S' 5

theorem wordIdOf_inj : Function.Injective wordIdOf := idOf_inj 'W' 6

theorem letterIdOf_inj : Function.Injective letterIdOf := idOf_inj 'L' 8

/-- Appending two blocks of consecutively numbered IDs gives one block. -/
theorem seq_map_append {α : Type} (f : Nat → α) (s n m : Nat) :
    (List.range n).map (fun k => f (s + k)) ++
      (List.range m).map (fun k => f (s + n + k)) =
    (List.range (n + m)).map (fun k => f (s + k)) := by
  rw [List.range_add, List.map_append, List.map_map]
  congr 1
  apply List.map_congr_left
  intro k _
  simp only [Function.comp_apply]
  congr 1
  omega

/-! ### Builder specifications -/

/-- Per-word facts established by the words loop. -/
def WordWF (w : Word) : Prop :=
  w.letter_count = w.letters.length ∧ w.letters.map Letter.char = w.text

/-- Per-sentence facts established by the sentences loop. -/
def SentWF (s : Sentence) : Prop :=
  s.word_count = s.words.length ∧ s.words.map Word.text = findWords s.text ∧
    s.words.Forall WordWF

/-- Per-paragraph facts established by the paragraphs loop. -/
def ParaWF (p : Paragraph) : Prop :=
  p.sentence_count = p.sentences.length ∧
    p.sentences.map Sentence.text =
      (splitSentences p.text).filter (fun q => !(pyStrip q).isEmpty) ∧
    p.sentences.Forall SentWF

/-- Per-theme facts established by the themes loop. -/
def ThemeWF (t : Theme) : Prop :=
  t.paragraph_count = t.paragraphs.length ∧
    t.paragraphs.map Paragraph.text =
      (splitParagraphs t.text).filter (fun q => !(pyStrip q).isEmpty) ∧
    t.paragraphs.Forall ParaWF

theorem seq_map_succ {α : Type} (f : Nat → α) (s n : Nat) :
    (List.range (n + 1)).map (fun k => f (s + k)) =
      f s :: (List.range n).map (fun k => f (s + 1 + k)) := by
  rw [List.range_succ_eq_map]
  simp only [List.map_cons, List.map_map, Nat.add_zero]
  congr 1
  apply List.map_congr_left
  intro k _
  simp only [Function.comp_apply, Nat.succ_eq_add_one]
  congr 1
  omega

theorem buildLetters_spec (tid pid sid wid : List Char) :
    ∀ (lc : Nat) (cs : List Char),
      (buildLetters tid pid sid wid lc cs).ls.map Letter.id =
        (List.range cs.length).map (fun k => letterIdOf (lc + k)) ∧
      (buildLetters tid pid sid wid lc cs).lc = lc + cs.length ∧
      (buildLetters tid pid sid wid lc cs).ls.map Letter.char = cs := by
  intro lc cs
  induction cs generalizing lc with
  | nil => simp [buildLetters]
  | cons c rest ih =>
    obtain ⟨ih1, ih2, ih3⟩ := ih (lc + 1)
    refine ⟨?_, ?_, ?_⟩
    · simp only [buildLetters, List.map_cons, List.length_cons]
      rw [ih1, seq_map_succ letterIdOf lc rest.length]
    · simp only [buildLetters, List.length_cons]
      rw [ih2]; omega
    · simp only [buildLetters, List.map_cons]
      rw [ih3]

theorem buildWords_spec (tid pid sid : List Char) :
    ∀ (ws : List (List Char)) (wc lc : Nat),
      (buildWords tid pid sid wc lc ws).ws.map Word.id =
        (List.range ws.length).map (fun k => wordIdOf (wc + k)) ∧
      (buildWords tid pid sid wc lc ws).wc = wc + ws.length ∧
      (buildWords tid pid sid wc lc ws).ws.map Word.text = ws ∧
      ((buildWords tid pid sid wc lc ws).ws.flatMap Word.letters).map Letter.id =
        (List.range ((buildWords tid pid sid wc lc ws).ws.flatMap Word.letters).length).map
          (fun k => letterIdOf (lc + k)) ∧
      (buildWords tid pid sid wc lc ws).lc =
        lc + ((buildWords tid pid sid wc lc ws).ws.flatMap Word.letters).length ∧
      (buildWords tid pid sid wc lc ws).ws.Forall WordWF := by
  intro ws
  induction ws with
  | nil => intro wc lc; simp [buildWords]
  | cons w rest ih =>
    intro wc lc
    obtain ⟨hl1, hl2, hl3⟩ := buildLetters_spec tid pid sid (wordIdOf wc) lc w
    have hlen : (buildLetters tid pid sid (wordIdOf wc) lc w).ls.length = w.length := by
      have := congrArg List.length hl3
      simpa using this
    obtain ⟨ih1, ih2, ih3, ih4, ih5, ih6⟩ :=
      ih (wc + 1) (buildLetters tid pid sid (wordIdOf wc) lc w).lc
    refine ⟨?_, ?_, ?_, ?_, ?_, ?_⟩
    · simp only [buildWords, List.map_cons, List.length_cons]
      rw [ih1, seq_map_succ wordIdOf wc rest.length]
    · simp only [buildWords, List.length_cons]
      rw [ih2]; omega
    · simp only [buildWords, List.map_cons]
      rw [ih3]
    · simp only [buildWords, List.flatMap_cons, List.map_append, List.length_append]
      rw [hl1, ih4, hl2, hlen]
      rw [seq_map_append letterIdOf lc w.length]
    · simp only [buildWords, List.flatMap_cons, List.length_append]
      rw [ih5, hl2, hlen]
      omega
    · simp only [buildWords, List.forall_cons]
      refine ⟨⟨rfl, hl3⟩, ih6⟩

theorem buildSentences_spec (tid pid : List Char) :
    ∀ (ps : List (List Char)) (sc wc lc : Nat),
      (buildSentences tid pid sc wc lc ps).ss.map Sentence.id =
        (List.range (buildSentences tid pid sc wc lc ps).ss.length).map
          (fun k => sentIdOf (sc + k)) ∧
      (buildSentences tid pid sc wc lc ps).sc =
        sc + (buildSentences tid pid sc wc lc ps).ss.length ∧
      (buildSentences tid pid sc wc lc ps).ss.map Sentence.text =
        ps.filter (fun q => !(pyStrip q).isEmpty) ∧
      ((buildSentences tid pid sc wc lc ps).ss.flatMap Sentence.words).map Word.id =
        (List.range ((buildSentences tid pid sc wc lc ps).ss.flatMap Sentence.words).length).map
          (fun k => wordIdOf (wc + k)) ∧
      (buildSentences tid pid sc wc lc ps).wc =
        wc + ((buildSentences tid pid sc wc lc ps).ss.flatMap Sentence.words).length ∧
      (((buildSentences tid pid sc wc lc ps).ss.flatMap Sentence.words).flatMap
          Word.letters).map Letter.id =
        (List.range (((buildSentences tid pid sc wc lc ps).ss.flatMap Sentence.words).flatMap
          Word.letters).length).map (fun k => letterIdOf (lc + k)) ∧
      (buildSentences tid pid sc wc lc ps).lc =
        lc + (((buildSentences tid pid sc wc lc ps).ss.flatMap Sentence.words).flatMap
          Word.letters).length ∧
      (buildSentences tid pid sc wc lc ps).ss.Forall SentWF := by
  intro ps
  induction ps with
  | nil => intro sc wc lc; simp [buildSentences]
  | cons p rest ih =>
    intro sc wc lc
    by_cases hp : (pyStrip p).isEmpty
    · obtain ⟨ih1, ih2, ih3, ih4, ih5, ih6, ih7, ih8⟩ := ih sc wc lc
      simp only [buildSentences, hp, if_true]
      refine ⟨ih1, ih2, ?_, ih4, ih5, ih6, ih7, ih8⟩
      rw [List.filter_cons, ih3]
      simp [hp]
    · have hp' : (pyStrip p).isEmpty = false := by
        cases h : (pyStrip p).isEmpty
        · rfl
        · exact absurd h hp
      obtain ⟨hw1, hw2, hw3, hw4, hw5, hw6⟩ :=
        buildWords_spec tid pid (sentIdOf sc) (findWords p) wc lc
      have hwlen : (buildWords tid pid (sentIdOf sc) wc lc (findWords p)).ws.length =
          (findWords p).length := by
        have := congrArg List.length hw3
        simpa using this
      obtain ⟨ih1, ih2, ih3, ih4, ih5, ih6, ih7, ih8⟩ :=
        ih (sc + 1) (buildWords tid pid (sentIdOf sc) wc lc (findWords p)).wc
          (buildWords tid pid (sentIdOf sc) wc lc (findWords p)).lc
      simp only [buildSentences, hp', Bool.false_eq_true, if_false]
      refine ⟨?_, ?_, ?_, ?_, ?_, ?_, ?_, ?_⟩
      · simp only [List.map_cons, List.length_cons]
        rw [ih1, seq_map_succ sentIdOf sc]
      · simp only [List.length_cons]
        rw [ih2]; omega
      · simp only [List.map_cons]
        rw [ih3, List.filter_cons]
        simp [hp']
      · simp only [List.flatMap_cons, List.map_append, List.length_append]
        rw [hw1, ih4, hw2, hwlen]
        exact seq_map_append wordIdOf wc _ _
      · simp only [List.flatMap_cons, List.length_append]
        rw [ih5, hw2, hwlen]
        omega
      · simp only [List.flatMap_cons, List.flatMap_append, List.map_append,
          List.length_append]
        rw [hw4, ih6, hw5]
        exact seq_map_append letterIdOf lc _ _
      · simp only [List.flatMap_cons, List.flatMap_append, List.length_append]
        rw [ih7, hw5]
        omega
      · simp only [List.forall_cons]
        exact ⟨⟨rfl, hw3, hw6⟩, ih8⟩

theorem buildParagraphs_spec (tid : List Char) :
    ∀ (ps : List (List Char)) (pc sc wc lc : Nat),
      (buildParagraphs tid pc sc wc lc ps).ps.map Paragraph.id =
        (List.range (buildParagraphs tid pc sc wc lc ps).ps.length).map
          (fun k => paraIdOf (pc + k)) ∧
      (buildParagraphs tid pc sc wc lc ps).pc =
        pc + (buildParagraphs tid pc sc wc lc ps).ps.length ∧
      (buildParagraphs tid pc sc wc lc ps).ps.map Paragraph.text =
        ps.filter (fun q => !(pyStrip q).isEmpty) ∧
      ((buildParagraphs tid pc sc wc lc ps).ps.flatMap Paragraph.sentences).map
          Sentence.id =
        (List.range ((buildParagraphs tid pc sc wc lc ps).ps.flatMap
          Paragraph.sentences).length).map (fun k => sentIdOf (sc + k)) ∧
      (buildParagraphs tid pc sc wc lc ps).sc =
        sc + ((buildParagraphs tid pc sc wc lc ps).ps.flatMap Paragraph.sentences).length ∧
      (((buildParagraphs tid pc sc wc lc ps).ps.flatMap Paragraph.sentences).flatMap
          Sentence.words).map Word.id =
        (List.range (((buildParagraphs tid pc sc wc lc ps).ps.flatMap
          Paragraph.sentences).flatMap Sentence.words).length).map
          (fun k => wordIdOf (wc + k)) ∧
      (buildParagraphs tid pc sc wc lc ps).wc =
        wc + (((buildParagraphs tid pc sc wc lc ps).ps.flatMap
          Paragraph.sentences).flatMap Sentence.words).length ∧
      ((((buildParagraphs tid pc sc wc lc ps).ps.flatMap Paragraph.sentences).flatMap
          Sentence.words).flatMap Word.letters).map Letter.id =
        (List.range ((((buildParagraphs tid pc sc wc lc ps).ps.flatMap
          Paragraph.sentences).flatMap Sentence.words).flatMap Word.letters).length).map
          (fun k => letterIdOf (lc + k)) ∧
      (buildParagraphs tid pc sc wc lc ps).lc =
        lc + ((((buildParagraphs tid pc sc wc lc ps).ps.flatMap
          Paragraph.sentences).flatMap Sentence.words).flatMap Word.letters).length ∧
      (buildParagraphs tid pc sc wc lc ps).ps.Forall ParaWF := by
  intro ps
  induction ps with
  | nil => intro pc sc wc lc; simp [buildParagraphs]
  | cons p rest ih =>
    intro pc sc wc lc
    by_cases hp : (pyStrip p).isEmpty
    · obtain ⟨ih1, ih2, ih3, ih4, ih5, ih6, ih7, ih8, ih9, ih10⟩ := ih pc sc wc lc
      simp only [buildParagraphs, hp, if_true]
      refine ⟨ih1, ih2, ?_, ih4, ih5, ih6, ih7, ih8, ih9, ih10⟩
      rw [List.filter_cons, ih3]
      simp [hp]
    · have hp' : (pyStrip p).isEmpty = false := by
        cases h : (pyStrip p).isEmpty
        · rfl
        · exact absurd h hp
      obtain ⟨hs1, hs2, hs3, hs4, hs5, hs6, hs7, hs8⟩ :=
        buildSentences_spec tid (paraIdOf pc) (splitSentences p) sc wc lc
      obtain ⟨ih1, ih2, ih3, ih4, ih5, ih6, ih7, ih8, ih9, ih10⟩ :=
        ih (pc + 1) (buildSentences tid (paraIdOf pc) sc wc lc (splitSentences p)).sc
          (buildSentences tid (paraIdOf pc) sc wc lc (splitSentences p)).wc
          (buildSentences tid (paraIdOf pc) sc wc lc (splitSentences p)).lc
      simp only [buildParagraphs, hp', Bool.false_eq_true, if_false]
      refine ⟨?_, ?_, ?_, ?_, ?_, ?_, ?_, ?_, ?_, ?_⟩
      · simp only [List.map_cons, List.length_cons]
        rw [ih1, seq_map_succ paraIdOf pc]
      · simp only [List.length_cons]
        rw [ih2]; omega
      · simp only [List.map_cons]
        rw [ih3, List.filter_cons]
        simp [hp']
      · simp only [List.flatMap_cons, List.map_append, List.length_append]
        rw [hs1, ih4, hs2]
        exact seq_map_append sentIdOf sc _ _
      · simp only [List.flatMap_cons, List.length_append]
        rw [ih5, hs2]
        omega
      · simp only [List.flatMap_cons, List.flatMap_append, List.map_append,
          List.length_append]
        rw [hs4, ih6, hs5]
        exact seq_map_append wordIdOf wc _ _
      · simp only [List.flatMap_cons, List.flatMap_append, List.length_append]
        rw [ih7, hs5]
        omega
      · simp only [List.flatMap_cons, List.flatMap_append, List.map_append,
          List.length_append]
        rw [hs6, ih8, hs7]
        exact seq_map_append letterIdOf lc _ _
      · simp only [List.flatMap_cons, List.flatMap_append, List.length_append]
        rw [ih9, hs7]
        omega
      · simp only [List.forall_cons]
        exact ⟨⟨rfl, hs3, hs8⟩, ih10⟩

theorem buildThemes_spec :
    ∀ (prs : List (List Char × List Char)) (tc pc sc wc lc : Nat),
      (buildThemes tc pc sc wc lc prs).ts.map Theme.id =
        (List.range (buildThemes tc pc sc wc lc prs).ts.length).map
          (fun k => themeIdOf (tc + k)) ∧
      (buildThemes tc pc sc wc lc prs).tc =
        tc + (buildThemes tc pc sc wc lc prs).ts.length ∧
      ((buildThemes tc pc sc wc lc prs).ts.flatMap Theme.paragraphs).map Paragraph.id =
        (List.range ((buildThemes tc pc sc wc lc prs).ts.flatMap
          Theme.paragraphs).length).map (fun k => paraIdOf (pc + k)) ∧
      (buildThemes tc pc sc wc lc prs).pc =
        pc + ((buildThemes tc pc sc wc lc prs).ts.flatMap Theme.paragraphs).length ∧
      (((buildThemes tc pc sc wc lc prs).ts.flatMap Theme.paragraphs).flatMap
          Paragraph.sentences).map Sentence.id =
        (List.range (((buildThemes tc pc sc wc lc prs).ts.flatMap
          Theme.paragraphs).flatMap Paragraph.sentences).length).map
          (fun k => sentIdOf (sc + k)) ∧
      (buildThemes tc pc sc wc lc prs).sc =
        sc + (((buildThemes tc pc sc wc lc prs).ts.flatMap Theme.paragraphs).flatMap
          Paragraph.sentences).length ∧
      ((((buildThemes tc pc sc wc lc prs).ts.flatMap Theme.paragraphs).flatMap
          Paragraph.sentences).flatMap Sentence.words).map Word.id =
        (List.range ((((buildThemes tc pc sc wc lc prs).ts.flatMap
          Theme.paragraphs).flatMap Paragraph.sentences).flatMap
          Sentence.words).length).map (fun k => wordIdOf (wc + k)) ∧
      (buildThemes tc pc sc wc lc prs).wc =
        wc + ((((buildThemes tc pc sc wc lc prs).ts.flatMap Theme.paragraphs).flatMap
          Paragraph.sentences).flatMap Sentence.words).length ∧
      (((((buildThemes tc pc sc wc lc prs).ts.flatMap Theme.paragraphs).flatMap
          Paragraph.sentences).flatMap Sentence.words).flatMap Word.letters).map
          Letter.id =
        (List.range (((((buildThemes tc pc sc wc lc prs).ts.flatMap
          Theme.paragraphs).flatMap Paragraph.sentences).flatMap Sentence.words).flatMap
          Word.letters).length).map (fun k => letterIdOf (lc + k)) ∧
      (buildThemes tc pc sc wc lc prs).lc =
        lc + (((((buildThemes tc pc sc wc lc prs).ts.flatMap Theme.paragraphs).flatMap
          Paragraph.sentences).flatMap Sentence.words).flatMap Word.letters).length ∧
      (buildThemes tc pc sc wc lc prs).ts.Forall ThemeWF := by
  intro prs
  induction prs with
  | nil => intro tc pc sc wc lc; simp [buildThemes]
  | cons pr rest ih =>
    intro tc pc sc wc lc
    obtain ⟨hq1, hq2, hq3, hq4, hq5, hq6, hq7, hq8, hq9, hq10⟩ :=
      buildParagraphs_spec (themeIdOf tc) (splitParagraphs (pyStrip pr.2)) pc sc wc lc
    obtain ⟨ih1, ih2, ih3, ih4, ih5, ih6, ih7, ih8, ih9, ih10, ih11⟩ :=
      ih (tc + 1)
        (buildParagraphs (themeIdOf tc) pc sc wc lc (splitParagraphs (pyStrip pr.2))).pc
        (buildParagraphs (themeIdOf tc) pc sc wc lc (splitParagraphs (pyStrip pr.2))).sc
        (buildParagraphs (themeIdOf tc) pc sc wc lc (splitParagraphs (pyStrip pr.2))).wc
        (buildParagraphs (themeIdOf tc) pc sc wc lc (splitParagraphs (pyStrip pr.2))).lc
    simp only [buildThemes]
    refine ⟨?_, ?_, ?_, ?_, ?_, ?_, ?_, ?_, ?_, ?_, ?_⟩
    · simp only [List.map_cons, List.length_cons]
      rw [ih1, seq_map_succ themeIdOf tc]
    · simp only [List.length_cons]
      rw [ih2]; omega
    · simp only [List.flatMap_cons, List.map_append, List.length_append]
      rw [hq1, ih3, hq2]
      exact seq_map_append paraIdOf pc _ _
    · simp only [List.flatMap_cons, List.length_append]
      rw [ih4, hq2]
      omega
    · simp only [List.flatMap_cons, List.flatMap_append, List.map_append,
        List.length_append]
      rw [hq4, ih5, hq5]
      exact seq_map_append sentIdOf sc _ _
    · simp only [List.flatMap_cons, List.flatMap_append, List.length_append]
      rw [ih6, hq5]
      omega
    · simp only [List.flatMap_cons, List.flatMap_append, List.map_append,
        List.length_append]
      rw [hq6, ih7, hq7]
      exact seq_map_append wordIdOf wc _ _
    · simp only [List.flatMap_cons, List.flatMap_append, List.length_append]
      rw [ih8, hq7]
      omega
    · simp only [List.flatMap_cons, List.flatMap_append, List.map_append,
        List.length_append]
      rw [hq8, ih9, hq9]
      exact seq_map_append letterIdOf lc _ _
    · simp only [List.flatMap_cons, List.flatMap_append, List.length_append]
      rw [ih10, hq9]
      omega
    · simp only [List.forall_cons]
      exact ⟨⟨rfl, hq3, hq10⟩, ih11⟩

/-! ### Corpus-level traversals and facts about `atomize_manuscript` -/

/-- All paragraph atoms of the result, in tree order. -/
def allParas (r : AtomizeResult) : List Paragraph :=
  r.themes.flatMap Theme.paragraphs

/-- All sentence atoms of the result, in tree order. -/
def allSents (r : AtomizeResult) : List Sentence :=
  (allParas r).flatMap Paragraph.sentences

/-- All word atoms of the result, in tree order. -/
def allWords (r : AtomizeResult) : List Word :=
  (allSents r).flatMap Sentence.words

/-- All letter atoms of the result, in tree order. -/
def allLetters (r : AtomizeResult) : List Letter :=
  (allWords r).flatMap Word.letters

theorem atomize_themes_eq (content : List Char) :
    (atomize_manuscript content).themes =
      (buildThemes 1 1 1 1 1 (partsOf content).2).ts := rfl

theorem atomize_total_paragraphs_eq (content : List Char) :
    (atomize_manuscript content).metadata.total_paragraphs =
      (buildThemes 1 1 1 1 1 (partsOf content).2).pc - 1 := rfl

theorem atomize_total_sentences_eq (content : List Char) :
    (atomize_manuscript content).metadata.total_sentences =
      (buildThemes 1 1 1 1 1 (partsOf content).2).sc - 1 := rfl

theorem atomize_total_words_eq (content : List Char) :
    (atomize_manuscript content).metadata.total_words =
      (buildThemes 1 1 1 1 1 (partsOf content).2).wc - 1 := rfl

theorem atomize_total_letters_eq (content : List Char) :
    (atomize_manuscript content).metadata.total_letters =
      (buildThemes 1 1 1 1 1 (partsOf content).2).lc - 1 := rfl

theorem themes_forall_wf (content : List Char) :
    (atomize_manuscript content).themes.Forall ThemeWF := by
  rw [atomize_themes_eq]
  exact (buildThemes_spec (partsOf content).2 1 1 1 1 1).2.2.2.2.2.2.2.2.2.2

theorem themeWF_all (content : List Char) :
    ∀ t ∈ (atomize_manuscript content).themes, ThemeWF t :=
  List.forall_iff_forall_mem.mp (themes_forall_wf content)

theorem paraWF_all (content : List Char) :
    ∀ p ∈ allParas (atomize_manuscript content), ParaWF p := by
  intro p hp
  obtain ⟨t, ht, hp⟩ := List.mem_flatMap.mp hp
  exact List.forall_iff_forall_mem.mp (themeWF_all content t ht).2.2 p hp

theorem sentWF_all (content : List Char) :
    ∀ s ∈ allSents (atomize_manuscript content), SentWF s := by
  intro s hs
  obtain ⟨p, hp, hs⟩ := List.mem_flatMap.mp hs
  exact List.forall_iff_forall_mem.mp (paraWF_all content p hp).2.2 s hs

theorem wordWF_all (content : List Char) :
    ∀ w ∈ allWords (atomize_manuscript content), WordWF w := by
  intro w hw
  obtain ⟨s, hs, hw⟩ := List.mem_flatMap.mp hw
  exact List.forall_iff_forall_mem.mp (sentWF_all content s hs).2.2 w hw

/-- Whitespace normalization: collapse every whitespace run to a single
space and strip the ends (the canonical normal form in which two texts are
a "whitespace-normalized match" iff they are equal). -/
def normWs (s : List Char) : List Char :=
  List.intercalate [' '] (findWords s)

theorem normWs_eq_of_findWords_eq {a b : List Char} (h : findWords a = findWords b) :
    normWs a = normWs b := by
  unfold normWs
  rw [h]

theorem intercalate_nil_eq_flatten (ls : List (List Char)) :
    List.intercalate [] ls = ls.flatten := by
  induction ls with
  | nil => rfl
  | cons a t ih =>
    cases t with
    | nil => simp [List.intercalate, List.intersperse]
    | cons b t' =>
      have h1 : List.intercalate ([] : List Char) (a :: b :: t') =
          a ++ [] ++ List.intercalate [] (b :: t') := by
        simp [List.intercalate, List.intersperse]
      rw [h1, ih]
      simp

theorem flatten_map_singleton (cs : List Char) :
    (cs.map (fun c => [c])).flatten = cs := by
  induction cs with
  | nil => rfl
  | cons c t ih => simp [ih]

/-! ### Preamble handling -/

theorem linesAux_no_newline (pre : List Char) :
    ∀ (acc rest : List Char), '\n' ∉ pre →
      linesAux acc (pre ++ '\n' :: rest) = (acc.reverse ++ pre) :: linesAux [] rest := by
  induction pre with
  | nil => intro acc rest _; simp [linesAux]
  | cons c pre' ih =>
    intro acc rest h
    have hc : ¬c = '\n' := fun hc => h (by simp [hc])
    have h' : '\n' ∉ pre' := fun hm => h (by simp [hm])
    simp only [List.cons_append, linesAux, hc, if_false]
    rw [show pre'.append ('\n' :: rest) = pre' ++ '\n' :: rest from rfl,
      ih (c :: acc) rest h']
    simp

theorem partsAux_snd_cons_nonheading (l : List Char) (ls : List (List Char))
    (h : isHeadingLine l = false) : (partsAux (l :: ls)).2 = (partsAux ls).2 := by
  simp [partsAux, h]

theorem partsOf_snd_drop_preamble (pre rest : List Char) (h1 : '\n' ∉ pre)
    (h2 : isHeadingLine pre = false) :
    (partsOf (pre ++ '\n' :: rest)).2 = (partsOf ('\n' :: rest)).2 := by
  unfold partsOf linesOf
  rw [linesAux_no_newline pre [] rest h1]
  have hl : linesAux [] ('\n' :: rest) = [] :: linesAux [] rest := by
    simp [linesAux]
  rw [hl]
  simp only [List.reverse_nil, List.nil_append]
  rw [partsAux_snd_cons_nonheading pre _ h2,
    partsAux_snd_cons_nonheading [] _ rfl]

/-! ### Claim theorems for the atomization engine -/

/-- C1: atomizing `"## Intro\n\nHello world. Bye now.\n\n## End\n\nDone."`
with the default five-level schema yields exactly two themes `T001` "Intro"
and `T002` "End"; `T001` has one paragraph with the two sentences
"Hello world." and "Bye now." of two words each, and `T002` has one
paragraph with the single one-word sentence "Done.". -/
theorem C1_example_scenario :
    (atomize_manuscript ("## Intro\n\nHello world. Bye now.\n\n## End\n\nDone.".toList)).themes.map
        Theme.id = ["T001".toList, "T002".toList] ∧
    (atomize_manuscript ("## Intro\n\nHello world. Bye now.\n\n## End\n\nDone.".toList)).themes.map
        Theme.title = ["Intro".toList, "End".toList] ∧
    (atomize_manuscript ("## Intro\n\nHello world. Bye now.\n\n## End\n\nDone.".toList)).themes.map
        (fun t => t.paragraphs.map (fun p => p.sentences.map Sentence.text)) =
      [[["Hello world.".toList, "Bye now.".toList]], [["Done.".toList]]] ∧
    (atomize_manuscript ("## Intro\n\nHello world. Bye now.\n\n## End\n\nDone.".toList)).themes.map
        (fun t => t.paragraphs.map (fun p => p.sentences.map (fun s => s.words.length))) =
      [[[2, 2]], [[1]]] := by
  decide

/-- C2 counterexample: for the input `"Pre.\n\n## A\n\nx."`, whose text
before the first heading is the non-blank `"Pre."`, the resulting theme list
consists of a single theme whose text is `"x."`; no theme holds the preamble
text, refuting the claim that a non-empty preamble is kept as an untitled
first theme. -/
theorem C2_counterexample :
    (atomize_manuscript ("Pre.\n\n## A\n\nx.".toList)).themes.map Theme.text =
      ["x.".toList] ∧
    "Pre.".toList ∉
      (atomize_manuscript ("Pre.\n\n## A\n\nx.".toList)).themes.map Theme.text := by
  decide

/-- C2 (amended): text that precedes the first `##` heading is always
dropped by `atomize_manuscript`, whether empty or not: replacing a
newline-free, non-heading first line by an empty one does not change the
result at all. -/
theorem C2_preamble_always_dropped (pre rest : List Char) (h1 : '\n' ∉ pre)
    (h2 : isHeadingLine pre = false) :
    atomize_manuscript (pre ++ '\n' :: rest) = atomize_manuscript ('\n' :: rest) := by
  have hp := partsOf_snd_drop_preamble pre rest h1 h2
  simp only [atomize_manuscript]
  rw [hp]

/-- Witness for `C2_preamble_always_dropped` at a concrete input. -/
theorem C2_preamble_always_dropped_witness :
    atomize_manuscript ("Pre.".toList ++ '\n' :: "\n## A\n\nx.".toList) =
      atomize_manuscript ('\n' :: "\n## A\n\nx.".toList) :=
  C2_preamble_always_dropped ("Pre.".toList) ("\n## A\n\nx.".toList)
    (by decide) (by decide)

/-- The five per-level ID lists of an atomization result are blocks of
consecutively numbered IDs starting at counter value 1 (shared by the
claims about ID formats and ID uniqueness). -/
theorem atomize_id_lists (content : List Char) :
    (atomize_manuscript content).themes.map Theme.id =
      (List.range (atomize_manuscript content).themes.length).map
        (fun k => themeIdOf (1 + k)) ∧
    (allParas (atomize_manuscript content)).map Paragraph.id =
      (List.range (allParas (atomize_manuscript content)).length).map
        (fun k => paraIdOf (1 + k)) ∧
    (allSents (atomize_manuscript content)).map Sentence.id =
      (List.range (allSents (atomize_manuscript content)).length).map
        (fun k => sentIdOf (1 + k)) ∧
    (allWords (atomize_manuscript content)).map Word.id =
      (List.range (allWords (atomize_manuscript content)).length).map
        (fun k => wordIdOf (1 + k)) ∧
    (allLetters (atomize_manuscript content)).map Letter.id =
      (List.range (allLetters (atomize_manuscript content)).length).map
        (fun k => letterIdOf (1 + k)) := by
  obtain ⟨h1, h2, h3, h4, h5, h6, h7, h8, h9, h10, h11⟩ :=
    buildThemes_spec (partsOf content).2 1 1 1 1 1
  exact ⟨h1, h3, h5, h7, h9⟩

/-- C3: under the legacy naming strategy every theme ID is `T` plus the
3-digit zero-padded value of a global counter that starts at 1 and is never
reset when a new parent atom starts, and likewise `P`+4 digits for
paragraphs, `S`+5 for sentences, `W`+6 for words and `L`+8 for letters: the
`k`-th atom of each level (in tree order, 0-based, across the whole corpus)
has the ID built from counter value `1 + k`. -/
theorem C3_id_formats (content : List Char) :
    (atomize_manuscript content).themes.map Theme.id =
      (List.range (atomize_manuscript content).themes.length).map
        (fun k => themeIdOf (1 + k)) ∧
    (allParas (atomize_manuscript content)).map Paragraph.id =
      (List.range (allParas (atomize_manuscript content)).length).map
        (fun k => paraIdOf (1 + k)) ∧
    (allSents (atomize_manuscript content)).map Sentence.id =
      (List.range (allSents (atomize_manuscript content)).length).map
        (fun k => sentIdOf (1 + k)) ∧
    (allWords (atomize_manuscript content)).map Word.id =
      (List.range (allWords (atomize_manuscript content)).length).map
        (fun k => wordIdOf (1 + k)) ∧
    (allLetters (atomize_manuscript content)).map Letter.id =
      (List.range (allLetters (atomize_manuscript content)).length).map
        (fun k => letterIdOf (1 + k)) :=
  atomize_id_lists content

/-- C4: in the atom tree produced by one atomization run, no two atoms at
the same level share an ID — the ID lists at all five levels are nodup. -/
theorem C4_id_uniqueness (content : List Char) :
    ((atomize_manuscript content).themes.map Theme.id).Nodup ∧
    ((allParas (atomize_manuscript content)).map Paragraph.id).Nodup ∧
    ((allSents (atomize_manuscript content)).map Sentence.id).Nodup ∧
    ((allWords (atomize_manuscript content)).map Word.id).Nodup ∧
    ((allLetters (atomize_manuscript content)).map Letter.id).Nodup := by
  obtain ⟨h1, h2, h3, h4, h5⟩ := atomize_id_lists content
  have hi : ∀ (idOf : Nat → List Char), Function.Injective idOf →
      Function.Injective (fun k : Nat => idOf (1 + k)) := by
    intro idOf hinj a b h
    have := hinj h
    omega
  refine ⟨?_, ?_, ?_, ?_, ?_⟩
  · rw [h1]; exact (List.nodup_range _).map (hi themeIdOf themeIdOf_inj)
  · rw [h2]; exact (List.nodup_range _).map (hi paraIdOf paraIdOf_inj)
  · rw [h3]; exact (List.nodup_range _).map (hi sentIdOf sentIdOf_inj)
  · rw [h4]; exact (List.nodup_range _).map (hi wordIdOf wordIdOf_inj)
  · rw [h5]; exact (List.nodup_range _).map (hi letterIdOf letterIdOf_inj)

/-- C5: the per-level totals in the metadata equal the sums of per-parent
child counts at each adjacent level pair. -/
theorem C5_count_consistency (content : List Char) :
    (atomize_manuscript content).metadata.total_words =
      ((allSents (atomize_manuscript content)).map Sentence.word_count).sum ∧
    (atomize_manuscript content).metadata.total_sentences =
      ((allParas (atomize_manuscript content)).map Paragraph.sentence_count).sum ∧
    (atomize_manuscript content).metadata.total_paragraphs =
      ((atomize_manuscript content).themes.map Theme.paragraph_count).sum ∧
    (atomize_manuscript content).metadata.total_letters =
      ((allWords (atomize_manuscript content)).map Word.letter_count).sum := by
  obtain ⟨h1, h2, h3, h4, h5, h6, h7, h8, h9, h10, h11⟩ :=
    buildThemes_spec (partsOf content).2 1 1 1 1 1
  have hpc : (buildThemes 1 1 1 1 1 (partsOf content).2).pc =
      1 + (allParas (atomize_manuscript content)).length := h4
  have hsc : (buildThemes 1 1 1 1 1 (partsOf content).2).sc =
      1 + (allSents (atomize_manuscript content)).length := h6
  have hwc : (buildThemes 1 1 1 1 1 (partsOf content).2).wc =
      1 + (allWords (atomize_manuscript content)).length := h8
  have hlc : (buildThemes 1 1 1 1 1 (partsOf content).2).lc =
      1 + (allLetters (atomize_manuscript content)).length := h10
  refine ⟨?_, ?_, ?_, ?_⟩
  · rw [atomize_total_words_eq, hwc, Nat.add_sub_cancel_left]
    rw [show allWords (atomize_manuscript content) =
      (allSents (atomize_manuscript content)).flatMap Sentence.words from rfl]
    rw [List.length_flatMap]
    congr 1
    apply List.map_congr_left
    intro s hs
    exact ((sentWF_all content s hs).1).symm
  · rw [atomize_total_sentences_eq, hsc, Nat.add_sub_cancel_left]
    rw [show allSents (atomize_manuscript content) =
      (allParas (atomize_manuscript content)).flatMap Paragraph.sentences from rfl]
    rw [List.length_flatMap]
    congr 1
    apply List.map_congr_left
    intro p hp
    exact ((paraWF_all content p hp).1).symm
  · rw [atomize_total_paragraphs_eq, hpc, Nat.add_sub_cancel_left]
    rw [show allParas (atomize_manuscript content) =
      (atomize_manuscript content).themes.flatMap Theme.paragraphs from rfl]
    rw [List.length_flatMap]
    congr 1
    apply List.map_congr_left
    intro t ht
    exact ((themeWF_all content t ht).1).symm
  · rw [atomize_total_letters_eq, hlc, Nat.add_sub_cancel_left]
    rw [show allLetters (atomize_manuscript content) =
      (allWords (atomize_manuscript content)).flatMap Word.letters from rfl]
    rw [List.length_flatMap]
    congr 1
    apply List.map_congr_left
    intro w hw
    exact ((wordWF_all content w hw).1).symm

/-- C6: for every atom above the letter level, joining its children's text
with the level's separator (the empty string for a word's letters, one
space otherwise) reproduces the atom's stored text — exactly for
letters-to-word, and up to whitespace normalization at the higher levels. -/
theorem C6_reconstruction (content : List Char) :
    (allWords (atomize_manuscript content)).Forall
      (fun w => List.intercalate [] (w.letters.map (fun l => [l.char])) = w.text) ∧
    (allSents (atomize_manuscript content)).Forall
      (fun s => normWs (List.intercalate [' '] (s.words.map Word.text)) = normWs s.text) ∧
    (allParas (atomize_manuscript content)).Forall
      (fun p => normWs (List.intercalate [' '] (p.sentences.map Sentence.text)) =
        normWs p.text) ∧
    (atomize_manuscript content).themes.Forall
      (fun t => normWs (List.intercalate [' '] (t.paragraphs.map Paragraph.text)) =
        normWs t.text) := by
  refine ⟨?_, ?_, ?_, ?_⟩
  · rw [List.forall_iff_forall_mem]
    intro w hw
    rw [intercalate_nil_eq_flatten,
      show w.letters.map (fun l => [l.char]) =
        (w.letters.map Letter.char).map (fun c => [c]) from by rw [List.map_map]; rfl,
      flatten_map_singleton, (wordWF_all content w hw).2]
  · rw [List.forall_iff_forall_mem]
    intro s hs
    apply normWs_eq_of_findWords_eq
    rw [(sentWF_all content s hs).2.1, findWords_intercalate, findWords_idem]
  · rw [List.forall_iff_forall_mem]
    intro p hp
    apply normWs_eq_of_findWords_eq
    rw [(paraWF_all content p hp).2.1, findWords_intercalate, flatMap_filter_strip,
      splitSentences_flatMap]
  · rw [List.forall_iff_forall_mem]
    intro t ht
    apply normWs_eq_of_findWords_eq
    rw [(themeWF_all content t ht).2.1, findWords_intercalate, flatMap_filter_strip,
      splitParagraphs_flatMap]

/-- C10: the metadata block of every atomization result carries the fixed
values title "Tomb of the Unknowns", author "Christopher Notarnicola" and
atomized date "2025-11-20", for every input whatsoever — they are never
derived from the input document or the current date. -/
theorem C10_metadata_constants (content : List Char) :
    (atomize_manuscript content).metadata.title = "Tomb of the Unknowns" ∧
    (atomize_manuscript content).metadata.author = "Christopher Notarnicola" ∧
    (atomize_manuscript content).metadata.atomized_date = "2025-11-20" :=
  ⟨rfl, rfl, rfl⟩

end LingAtom

namespace LingFrame

/-!
### Framework analysis modules

Embeddings of `src/framework/analysis/{sentiment,temporal,entity}.py`.
The framework core (`framework/core/ontology.py`, `analysis/base.py`) is not
part of the sources, so the data carriers it provides are modelled from the
spec; the analysis logic itself is translated from the module sources.
External NLP libraries (VADER, TextBlob, spaCy, `re`) are out-of-scope
collaborators and appear as explicit function parameters: within one process
they are fixed deterministic functions.
-/

/-- Modelled from the spec: a metadata value of an `AnalysisOutput` metadata
mapping (booleans, integers, strings or null). -/
inductive MetaVal where
  | b (v : Bool)
  | n (v : Nat)
  | s (v : String)
  | nul
deriving DecidableEq, Repr

/-- Modelled from the spec: `AnalysisOutput` — the uniform return value of
an analysis module: module name, module-specific data payload, metadata
mapping (§3); `make_output` of the missing `analysis/base.py` assembles
exactly these fields. -/
structure AnalysisOutput (D : Type) where
  module_name : String
  data : D
  metadata : List (String × MetaVal)

/-- Modelled from the spec: a sentence atom as seen by the analysis modules
(`id`, `text` and the propagated `theme_id` back-reference, §3). -/
structure FSentence where
  id : String
  text : String
  theme_id : String
deriving DecidableEq, Repr

/-- Modelled from the spec: a paragraph atom with its owned sentences. -/
structure FPara where
  id : String
  text : String
  sentences : List FSentence
deriving DecidableEq, Repr

/-- Modelled from the spec: a theme atom; `title` is the optional `"title"`
entry of the atom's metadata mapping. -/
structure FTheme where
  id : String
  title : Option String
  text : String
  paragraphs : List FPara
deriving DecidableEq, Repr

/-- Modelled from the spec: a document owning its root (theme) atoms. -/
structure FDoc where
  root_atoms : List FTheme
deriving DecidableEq, Repr

/-- Modelled from the spec: a corpus — a collection of documents (§3). -/
structure FCorpus where
  documents : List FDoc
deriving DecidableEq, Repr

/-- Modelled from the spec: `iter_atoms(corpus, THEME)` in document/tree
order (§4.4). -/
def iterThemes (c : FCorpus) : List FTheme :=
  c.documents.flatMap FDoc.root_atoms

/-- Modelled from the spec: `iter_atoms(corpus, SENTENCE)` in document/tree
order (§4.4). -/
def iterSents (c : FCorpus) : List FSentence :=
  (iterThemes c).flatMap (fun t => t.paragraphs.flatMap FPara.sentences)

/-- `theme.metadata.get("title", theme.id)`. -/
def themeTitle (t : FTheme) : String :=
  t.title.getD t.id

/-- The `theme_titles` dict built by the modules
(`theme_titles[theme.id] = …` then `.get(theme_id, theme_id)`): a later
theme with the same ID overrides an earlier one, so lookup is
last-occurrence-wins. -/
def titleOfTheme (c : FCorpus) (tid : String) : String :=
  match (iterThemes c).reverse.find? (fun t => t.id == tid) with
  | some t => themeTitle t
  | none => tid

/-- Modelled from the spec: a domain profile as consumed by the modules —
`merged_lexicon().terms` in dict order and `primary_patterns` as
(label, pattern) pairs (§3, §4.5). -/
structure DomainProfile where
  merged_terms : List (String × ℚ)
  primary_patterns : List (String × String)
deriving DecidableEq, Repr

/-- Python dict lookup in an association list (first match: dict keys are
unique). -/
def assocGet? {α : Type} (k : String) (l : List (String × α)) : Option α :=
  (l.find? (fun pr => pr.1 == k)).map (·.2)

/-- Python `d[k] = v`: replace in place if the key exists, append otherwise. -/
def assocSet {α : Type} (k : String) (v : α) : List (String × α) → List (String × α)
  | [] => [(k, v)]
  | (k', v') :: rest =>
    if k' == k then (k', v) :: rest else (k', v') :: assocSet k v rest

/-- `Counter[k] += 1` preserving insertion order. -/
def bumpCount (k : String) : List (String × Nat) → List (String × Nat)
  | [] => [(k, 1)]
  | (k', n) :: rest =>
    if k' == k then (k', n + 1) :: rest else (k', n) :: bumpCount k rest

/-- `defaultdict(list)[k].append(v)` preserving insertion order. -/
def bumpGroup {α : Type} (k : String) (v : α) : List (String × List α) → List (String × List α)
  | [] => [(k, [v])]
  | (k', vs) :: rest =>
    if k' == k then (k', vs ++ [v]) :: rest else (k', vs) :: bumpGroup k v rest

/-- `min` of a list of rationals (Python `min`, only reached on non-empty
lists; 0 as the unreachable default). -/
def listMin (l : List ℚ) : ℚ :=
  match l with
  | [] => 0
  | h :: t => t.foldl min h

/-- `max` of a list of rationals. -/
def listMax (l : List ℚ) : ℚ :=
  match l with
  | [] => 0
  | h :: t => t.foldl max h

/-! #### Sentiment module (`src/framework/analysis/sentiment.py`) -/

/-- The scores dict returned by VADER's `polarity_scores`. -/
structure VaderScores where
  compound : ℚ
  pos : ℚ
  neg : ℚ
  neu : ℚ
deriving DecidableEq, Repr

/-- TextBlob's `blob.sentiment`. -/
structure BlobSentiment where
  polarity : ℚ
  subjectivity : ℚ
deriving DecidableEq, Repr

/-- The state of the VADER analyzer that the module can mutate: its
lexicon (a term-to-score mapping). -/
abbrev VLex : Type := String → Option ℚ

/-- `self._vader.lexicon.update(lexicon)`: entries of `d` override. -/
def lexUpdate (L : VLex) (d : List (String × ℚ)) : VLex :=
  fun k =>
    match assocGet? k d with
    | some v => some v
    | none => L k

theorem lexUpdate_idem (L : VLex) (d : List (String × ℚ)) :
    lexUpdate (lexUpdate L d) d = lexUpdate L d := by
  funext k
  unfold lexUpdate
  cases assocGet? k d <;> rfl

/-- One sentence row of `sentence_sentiments`. -/
structure SentSent where
  sentence_id : String
  sentence_number : Nat
  theme_id : String
  theme_title : String
  text : String
  vader_compound : ℚ
  vader_pos : ℚ
  vader_neg : ℚ
  vader_neu : ℚ
  textblob_polarity : ℚ
  textblob_subjectivity : ℚ
  composite_score : ℚ
  classification : String
deriving DecidableEq, Repr

/-- The score part of `analyze_sentence`. -/
structure SentScores where
  vader_compound : ℚ
  vader_pos : ℚ
  vader_neg : ℚ
  vader_neu : ℚ
  textblob_polarity : ℚ
  textblob_subjectivity : ℚ
  composite_score : ℚ
  classification : String
deriving DecidableEq, Repr

/-- Per-theme statistics dict. -/
structure ThemeStats where
  title : String
  sentence_count : Nat
  mean_sentiment : ℚ
  stdev_sentiment : ℚ
  min_sentiment : ℚ
  max_sentiment : ℚ
  classification_counts : List (String × Nat)
deriving DecidableEq, Repr

/-- `overall_statistics`. -/
structure OverallStats where
  total_sentences : Nat
  classification_counts : List (String × Nat)
  mean_composite : ℚ
deriving DecidableEq, Repr

/-- The `data` payload of the sentiment module: either the degraded error
dict or the full result dict. -/
inductive SentimentData where
  | unavailable (error_msg : String)
  | results (sentence_sentiments : List SentSent)
      (most_negative most_positive : List SentSent)
      (theme_statistics : List (String × ThemeStats))
      (overall_statistics : OverallStats)
      (custom_lexicon : List (String × ℚ))

/-- `SentimentAnalysis.analyze_sentence`.  `vaderF` is the external VADER
scorer as a function of the analyzer's current lexicon; `blobF` is TextBlob.
Dereferencing the absent analyzer is an exception (`Except.error`). -/
def analyze_sentence (vaderF : VLex → String → VaderScores)
    (blobF : String → BlobSentiment) (va tb : Bool) (vader : Option VLex)
    (text : String) : Except String SentScores :=
  if va && tb then
    match vader with
    | none => .error "AttributeError: 'NoneType' object has no attribute 'polarity_scores'"
    | some L =>
      let vs := vaderF L text
      let blob := blobF text
      let composite := (vs.compound + blob.polarity) / 2
      let classification :=
        if composite ≥ (5 : ℚ) / 100 then "positive"
        else if composite ≤ -((5 : ℚ) / 100) then "negative"
        else "neutral"
      .ok ⟨vs.compound, vs.pos, vs.neg, vs.neu, blob.polarity, blob.subjectivity,
        composite, classification⟩
  else
    .ok ⟨0, 0, 0, 1, 0, 0, 0, "neutral"⟩

/-- The sentence loop of `analyze_all_sentences`; `n` is the running
`sentence_number` (incremented before each row). -/
def analyzeAllAux (vaderF : VLex → String → VaderScores)
    (blobF : String → BlobSentiment) (va tb : Bool) (vader : Option VLex)
    (c : FCorpus) (n : Nat) : List FSentence → Except String (List SentSent)
  | [] => .ok []
  | s :: rest => do
    let sc ← analyze_sentence vaderF blobF va tb vader s.text
    let r ← analyzeAllAux vaderF blobF va tb vader c (n + 1) rest
    .ok (⟨s.id, n + 1, s.theme_id, titleOfTheme c s.theme_id, s.text,
      sc.vader_compound, sc.vader_pos, sc.vader_neg, sc.vader_neu,
      sc.textblob_polarity, sc.textblob_subjectivity, sc.composite_score,
      sc.classification⟩ :: r)

/-- `SentimentAnalysis.analyze_all_sentences`. -/
def analyze_all_sentences (vaderF : VLex → String → VaderScores)
    (blobF : String → BlobSentiment) (va tb : Bool) (vader : Option VLex)
    (c : FCorpus) : Except String (List SentSent) :=
  analyzeAllAux vaderF blobF va tb vader c 0 (iterSents c)

/-- `SentimentAnalysis.find_emotional_peaks`: most negative = first `n` of
the stable sort by composite score, most positive = last `n` reversed. -/
def find_emotional_peaks (data : List SentSent) (n : Nat) :
    List SentSent × List SentSent :=
  let sorted := data.mergeSort (fun a b => a.composite_score ≤ b.composite_score)
  (sorted.take n, (sorted.drop (sorted.length - n)).reverse)

/-- `SentimentAnalysis.calculate_theme_statistics` for one theme group. -/
def themeStatsOfGroup (c : FCorpus) (tid : String) (ss : List SentSent)
    (stdevF : List ℚ → ℚ) : ThemeStats :=
  let scores := ss.map SentSent.composite_score
  { title := titleOfTheme c tid
  , sentence_count := ss.length
  , mean_sentiment := scores.sum / (scores.length : ℚ)
  , stdev_sentiment := if scores.length > 1 then stdevF scores else 0
  , min_sentiment := listMin scores
  , max_sentiment := listMax scores
  , classification_counts :=
      ss.foldl (fun a s => bumpCount s.classification a) [] }

/-- `SentimentAnalysis.calculate_theme_statistics`: group rows by theme in
first-occurrence order, then compute statistics per group (groups are
non-empty by construction; the `if not sentences: continue` guard of the
source never fires). -/
def calculate_theme_statistics (c : FCorpus) (data : List SentSent)
    (stdevF : List ℚ → ℚ) : List (String × ThemeStats) :=
  let grouped := data.foldl (fun a s => bumpGroup s.theme_id s a) []
  (grouped.filter (fun pr => ¬pr.2.isEmpty)).map
    (fun pr => (pr.1, themeStatsOfGroup c pr.1 pr.2 stdevF))

/-- The lexicon loaded from the domain profile by `load_lexicon`
(`merged_lexicon().terms.copy()`, empty without a domain). -/
def loadLexicon (domain : Option DomainProfile) : List (String × ℚ) :=
  match domain with
  | some d => d.merged_terms
  | none => []

/-- The effect of `load_lexicon` on the VADER analyzer's lexicon:
`if self._vader and lexicon: self._vader.lexicon.update(lexicon)`. -/
def updatedVader (st : Option VLex) (lexicon : List (String × ℚ)) : Option VLex :=
  match st with
  | some L => if lexicon.isEmpty then some L else some (lexUpdate L lexicon)
  | none => none

/-- The body of `SentimentAnalysis.analyze` after the availability guard and
the lexicon load, as a function of the (already updated) analyzer state. -/
def sentimentRun (vaderF : VLex → String → VaderScores)
    (blobF : String → BlobSentiment) (stdevF : List ℚ → ℚ) (va tb : Bool)
    (st' : Option VLex) (c : FCorpus) (lexicon : List (String × ℚ))
    (peak_count : Nat) : Except String (AnalysisOutput SentimentData) :=
  match analyze_all_sentences vaderF blobF va tb st' c with
  | .error e => .error e
  | .ok data =>
    let peaks := find_emotional_peaks data peak_count
    let tstats := calculate_theme_statistics c data stdevF
    let overall : OverallStats :=
      { total_sentences := data.length
      , classification_counts :=
          data.foldl (fun a s => bumpCount s.classification a) []
      , mean_composite :=
          if data.isEmpty then 0
          else (data.map SentSent.composite_score).sum / (data.length : ℚ) }
    .ok ⟨"sentiment",
      .results data peaks.1 peaks.2 tstats overall lexicon,
      [("vader_available", .b va), ("textblob_available", .b tb),
       ("lexicon_terms", .n lexicon.length)]⟩

/-- `SentimentAnalysis.analyze`, with the analyzer's lexicon state threaded
explicitly: takes the state (`some` lexicon iff VADER was importable at
construction) and returns the updated state with the output. -/
def sentimentAnalyze (vaderF : VLex → String → VaderScores)
    (blobF : String → BlobSentiment) (stdevF : List ℚ → ℚ) (va tb : Bool)
    (st : Option VLex) (c : FCorpus) (domain : Option DomainProfile)
    (peak_count : Nat) : Option VLex × Except String (AnalysisOutput SentimentData) :=
  if va && tb then
    let lexicon := loadLexicon domain
    let st' := updatedVader st lexicon
    (st', sentimentRun vaderF blobF stdevF va tb st' c lexicon peak_count)
  else
    (st, .ok ⟨"sentiment", .unavailable "vaderSentiment and textblob are required",
      [("sentiment_available", .b false)]⟩)

/-! #### Temporal module (`src/framework/analysis/temporal.py`) -/

/-- `TemporalAnalysis.TEMPORAL_ADVERBS`. -/
def TEMPORAL_ADVERBS : List String :=
  ["then", "now", "later", "before", "after", "once", "when",
   "while", "during", "until", "since", "ago", "soon", "already",
   "eventually", "finally", "previously", "formerly", "currently"]

/-- `TemporalAnalysis.PAST_INDICATORS`. -/
def PAST_INDICATORS : List String :=
  ["was", "were", "had", "did", "went", "saw", "told", "asked"]

/-- `TemporalAnalysis.PRESENT_INDICATORS`. -/
def PRESENT_INDICATORS : List String :=
  ["is", "are", "am", "do", "does", "see", "tell", "ask"]

/-- `TemporalAnalysis.FUTURE_INDICATORS`. -/
def FUTURE_INDICATORS : List String :=
  ["will", "shall", "going to", "would", "could", "might"]

/-- `TemporalAnalysis.FLASHBACK_SIGNALS`. -/
def FLASHBACK_SIGNALS : List String :=
  ["remember", "recalled", "looking back", "once upon", "used to",
   "in the past", "back then", "years ago", "deployment"]

/-- `TemporalAnalysis.FLASHFORWARD_SIGNALS`. -/
def FLASHFORWARD_SIGNALS : List String :=
  ["will be asked", "years later", "in the future", "someday",
   "when I return", "back home", "after the war"]

/-- Python `str.lower()`. -/
def strLower (s : String) : String :=
  String.mk (s.toList.map Char.toLower)

/-- Python `needle in haystack` (contiguous substring test). -/
def containsSub (needle hay : String) : Bool :=
  decide (needle.toList <:+: hay.toList)

/-- The per-tense verb counts extracted by spaCy morphology in
`detect_tense`. -/
structure TenseCounts where
  past : Nat
  present : Nat
  future : Nat
deriving DecidableEq, Repr

/-- `max(counts, key=counts.get)` over the dict
`{"past": p, "present": r, "future": f}`: the first key holding the
maximum. -/
def argmaxTense (p r f : Nat) : String :=
  if p ≥ r ∧ p ≥ f then "past"
  else if r ≥ f then "present"
  else "future"

/-- `TemporalAnalysis.detect_tense`: spaCy morphological counts when the
model is loaded and found any tensed verb, keyword scan otherwise.
`nlp` is the loaded spaCy pipeline as an external tense counter. -/
def detect_tense (nlp : Option (String → TenseCounts)) (sentence : String) : String :=
  let fallback :=
    let lower := strLower sentence
    let pastN := (PAST_INDICATORS.filter (fun w => containsSub w lower)).length
    let presN := (PRESENT_INDICATORS.filter (fun w => containsSub w lower)).length
    let futN := (FUTURE_INDICATORS.filter (fun w => containsSub w lower)).length
    if pastN = 0 ∧ presN = 0 ∧ futN = 0 then "ambiguous"
    else argmaxTense pastN presN futN
  match nlp with
  | some f =>
    let cts := f sentence
    if cts.past > 0 ∨ cts.present > 0 ∨ cts.future > 0 then
      argmaxTense cts.past cts.present cts.future
    else fallback
  | none => fallback

/-- `TemporalAnalysis.extract_temporal_markers`. -/
def extract_temporal_markers (text : String) : List String :=
  TEMPORAL_ADVERBS.filter (fun adverb => containsSub adverb (strLower text))

/-- `text[:100] + "..." if len(text) > 100 else text`. -/
def truncate100 (s : String) : String :=
  if s.length > 100 then String.mk (s.toList.take 100) ++ "..." else s

/-- One row of `sentence_analysis`. -/
structure TempSent where
  sentence_id : String
  theme_id : String
  theme_title : String
  text : String
  tense : String
  temporal_markers : List String
  is_flashback : Bool
  is_flashforward : Bool
  narrative_type : String
deriving DecidableEq, Repr

/-- The `_tense_distribution` state: `defaultdict(Counter)` mapping theme ID
to tense counts, in insertion order. -/
abbrev TDist : Type := List (String × List (String × Nat))

/-- `self._tense_distribution[theme_id][tense] += 1`. -/
def bumpDist (tid tense : String) : TDist → TDist
  | [] => [(tid, [(tense, 1)])]
  | (k, cnts) :: rest =>
    if k == tid then (k, bumpCount tense cnts) :: rest
    else (k, cnts) :: bumpDist tid tense rest

/-- The sentence loop of `TemporalAnalysis.analyze_sentences`, threading the
freshly cleared tense distribution. -/
def tempGo (nlp : Option (String → TenseCounts)) (c : FCorpus) :
    List FSentence → TDist → List TempSent × TDist
  | [], d => ([], d)
  | s :: rest, d =>
    let tense := detect_tense nlp s.text
    let d' := bumpDist s.theme_id tense d
    let lower := strLower s.text
    let fb := FLASHBACK_SIGNALS.any (fun sig => containsSub sig lower)
    let ff := FLASHFORWARD_SIGNALS.any (fun sig => containsSub sig lower)
    let row : TempSent :=
      ⟨s.id, s.theme_id, titleOfTheme c s.theme_id, truncate100 s.text, tense,
        extract_temporal_markers s.text, fb, ff,
        if fb then "flashback" else if ff then "flashforward" else "linear"⟩
    let r := tempGo nlp c rest d'
    (row :: r.1, r.2)

/-- `TemporalAnalysis.analyze_sentences`: clears `_tense_distribution`
(the incoming state is discarded) and walks all sentences. -/
def analyze_sentences_temporal (nlp : Option (String → TenseCounts))
    (c : FCorpus) : List TempSent × TDist :=
  tempGo nlp c (iterSents c) []

/-- A node of the Sankey data. -/
structure SankeyNode where
  id : String
  name : String
  group : String
deriving DecidableEq, Repr

/-- A link of the Sankey data. -/
structure SankeyLink where
  source : Nat
  target : Nat
  value : Nat
  link_type : String
deriving DecidableEq, Repr

/-- The chronological bucket labels. -/
def chronoLabels : List String := ["past", "present", "future", "ambiguous"]

/-- `node_index.get(theme_id, 0)`: position of the last theme with this ID
(dict insertion overwrites), 0 when absent. -/
def themeNodeIndex (ts : List FTheme) (tid : String) : Nat :=
  match ts.enum.reverse.find? (fun pr => pr.2.id == tid) with
  | some pr => pr.1
  | none => 0

/-- `TemporalAnalysis.generate_sankey_data`. -/
def generate_sankey_data (c : FCorpus) (dist : TDist) :
    List SankeyNode × List SankeyLink :=
  let ts := iterThemes c
  let nodes := ts.map (fun t => (⟨t.id, themeTitle t, "theme"⟩ : SankeyNode)) ++
    chronoLabels.map (fun label =>
      (⟨"CHRONO:" ++ label, "Chronology – " ++ label, "chronology"⟩ : SankeyNode))
  let links := dist.flatMap (fun pr =>
    (chronoLabels.enum.filterMap (fun le =>
      match assocGet? le.2 pr.2 with
      | some count =>
        if count > 0 then
          some (⟨themeNodeIndex ts pr.1, ts.length + le.1, count, "tense_flow"⟩ :
            SankeyLink)
        else none
      | none => none)))
  (nodes, links)

/-- `overall_statistics` of the temporal module. -/
structure TempOverall where
  total_sentences : Nat
  tense_counts : List (String × Nat)
  flashback_count : Nat
  flashforward_count : Nat
  linear_count : Nat
deriving DecidableEq, Repr

/-- The `data` payload of the temporal module. -/
structure TemporalData where
  sentence_analysis : List TempSent
  theme_tense_distribution : TDist
  overall_statistics : TempOverall
  sankey_data : Option (List SankeyNode × List SankeyLink)

/-- `TemporalAnalysis.analyze`, with the `_tense_distribution` instance
state threaded explicitly (it is cleared at the start of
`analyze_sentences` and repopulated). -/
def temporalAnalyze (spacyAvail : Bool) (nlp : Option (String → TenseCounts))
    (dist0 : TDist) (c : FCorpus) (include_sankey : Bool) :
    TDist × AnalysisOutput TemporalData :=
  let r := analyze_sentences_temporal nlp c
  let rows := r.1
  let dist := r.2
  let overall : TempOverall :=
    { total_sentences := rows.length
    , tense_counts := rows.foldl (fun a s => bumpCount s.tense a) []
    , flashback_count := (rows.filter (fun s => s.is_flashback)).length
    , flashforward_count := (rows.filter (fun s => s.is_flashforward)).length
    , linear_count := (rows.filter (fun s => s.narrative_type == "linear")).length }
  (dist, ⟨"temporal",
    ⟨rows, dist, overall,
      if include_sankey then some (generate_sankey_data c dist) else none⟩,
    [("spacy_available", .b spacyAvail),
     ("spacy_model", if nlp.isSome then .s "en_core_web_sm" else .nul)]⟩)

/-! #### Entity module (`src/framework/analysis/entity.py`) -/

/-- `EntityAnalysis.DEFAULT_PATTERNS`. -/
def DEFAULT_PATTERNS : List (String × String) :=
  [("PERSON", "\\b[A-Z][a-z]+(?:\\s+[A-Z][a-z]+)+\\b"),
   ("RANK", "\\b(Staff Sergeant|Gunnery Sergeant|Lieutenant|Captain|Corpsman|Sergeant|Private|Colonel|General)\\b"),
   ("LOCATION", "\\b(Arlington|Vietnam|Iraq|Afghanistan|Tomb)\\b"),
   ("EQUIPMENT", "\\b(M40|M16|rifle|mask|Thunderbird|weapon)\\b"),
   ("UNIT", "\\b(Marine Corps|platoon|squad|battalion|regiment)\\b"),
   ("TEMPORAL", "\\b(morning|evening|night|day|hour|minute|dawn|dusk|midnight|noon)\\b")]

/-- `EntityAnalysis.load_patterns`: domain patterns when present, defaults
otherwise (the compiled dict keeps the same label keys and order). -/
def load_patterns (domain : Option DomainProfile) : List (String × String) :=
  match domain with
  | some d => if ¬d.primary_patterns.isEmpty then d.primary_patterns else DEFAULT_PATTERNS
  | none => DEFAULT_PATTERNS

/-- `EntityAnalysis.extract_entities_pattern`: `findall` of every pattern;
labels with no matches never enter the `defaultdict` and so are absent from
the result.  `patMatchF pattern text` is the external regex engine
(`re.compile(..., re.IGNORECASE).findall`, tuple matches already reduced to
their first group). -/
def extract_entities_pattern (patMatchF : String → String → List String)
    (pats : List (String × String)) (text : String) :
    List (String × List String) :=
  (pats.map (fun pr => (pr.1, patMatchF pr.2 text))).filter
    (fun pr => ¬pr.2.isEmpty)

/-- `EntityAnalysis.extract_entities_spacy`: group the model's entities by
label in first-occurrence order; empty when the model is not loaded.
`spacyEntsF text` is the external NER yielding (label, text) pairs. -/
def extract_entities_spacy (spacyEntsF : String → List (String × String))
    (nlpLoaded : Bool) (text : String) : List (String × List String) :=
  if nlpLoaded then (spacyEntsF text).foldl (fun a pr => bumpGroup pr.1 pr.2 a) []
  else []

/-- One merge step of `extract_entities`: pattern entities take precedence;
an already-present label gets `list(set(old + new))` (modelled by the
process-fixed function `pySetListF`), a new label is appended. -/
def mergeEnt (pySetListF : List String → List String)
    (m : List (String × List String)) (pr : String × List String) :
    List (String × List String) :=
  match assocGet? pr.1 m with
  | some old => assocSet pr.1 (pySetListF (old ++ pr.2)) m
  | none => m ++ [(pr.1, pr.2)]

/-- `EntityAnalysis.extract_entities`. -/
def extract_entities (patMatchF : String → String → List String)
    (spacyEntsF : String → List (String × String))
    (pySetListF : List String → List String) (use_spacy nlpLoaded : Bool)
    (pats : List (String × String)) (text : String) :
    List (String × List String) :=
  if use_spacy && nlpLoaded then
    (extract_entities_pattern patMatchF pats text).foldl
      (mergeEnt pySetListF) (extract_entities_spacy spacyEntsF nlpLoaded text)
  else
    extract_entities_pattern patMatchF pats text

/-- An enhanced sentence of `enhanced_atomized`. -/
structure EntSent where
  id : String
  text : String
  entities : List (String × List String)
deriving DecidableEq, Repr

/-- An enhanced paragraph. -/
structure EntPara where
  id : String
  text : String
  sentences : List EntSent
deriving DecidableEq, Repr

/-- An enhanced theme. -/
structure EntTheme where
  id : String
  title : String
  text : String
  paragraphs : List EntPara
deriving DecidableEq, Repr

/-- The `entity_stats` accumulator: per-type counters over entity values. -/
abbrev EStats : Type := List (String × List (String × Nat))

/-- `for entity_type, values in entities.items(): for value in values:
entity_stats[entity_type][value] += 1`. -/
def bumpStats (entities : List (String × List String)) (st : EStats) : EStats :=
  entities.foldl
    (fun st pr => pr.2.foldl
      (fun st v =>
        match st with
        | [] => [(pr.1, [(v, 1)])]
        | _ =>
          match assocGet? pr.1 st with
          | some cnts => assocSet pr.1 (bumpCount v cnts) st
          | none => st ++ [(pr.1, [(v, 1)])])
      st)
    st

/-- `EntityAnalysis.annotate_corpus`, threading the statistics accumulator
through the tree traversal. -/
def annotate_corpus (patMatchF : String → String → List String)
    (spacyEntsF : String → List (String × String))
    (pySetListF : List String → List String) (use_spacy nlpLoaded : Bool)
    (pats : List (String × String)) (c : FCorpus) :
    List EntTheme × EStats :=
  c.documents.foldl
    (fun acc doc => doc.root_atoms.foldl
      (fun acc t =>
        let pr := t.paragraphs.foldl
          (fun pacc para =>
            let sr := para.sentences.foldl
              (fun sacc sent =>
                let ents := extract_entities patMatchF spacyEntsF pySetListF
                  use_spacy nlpLoaded pats sent.text
                (sacc.1 ++ [(⟨sent.id, sent.text, ents⟩ : EntSent)],
                  bumpStats ents sacc.2))
              (([] : List EntSent), pacc.2)
            (pacc.1 ++ [(⟨para.id, para.text, sr.1⟩ : EntPara)], sr.2))
          (([] : List EntPara), acc.2)
        (acc.1 ++ [(⟨t.id, themeTitle t, t.text, pr.1⟩ : EntTheme)], pr.2))
      acc)
    (([] : List EntTheme), ([] : EStats))

/-- Per-type statistics (`total`, `unique`, `top_10`). -/
structure EntTypeStats where
  total : Nat
  unique : Nat
  top_10 : List (String × Nat)
deriving DecidableEq, Repr

/-- `entity_statistics`. -/
structure EntStatsOut where
  total_entities : Nat
  by_type : List (String × EntTypeStats)
deriving DecidableEq, Repr

/-- `Counter.most_common(10)`: stable descending sort by count, first ten. -/
def mostCommon10 (cnts : List (String × Nat)) : List (String × Nat) :=
  (cnts.mergeSort (fun a b => a.2 ≥ b.2)).take 10

/-- `EntityAnalysis.calculate_statistics`. -/
def calculate_statistics (st : EStats) : EntStatsOut :=
  { total_entities := (st.map (fun pr => (pr.2.map Prod.snd).sum)).sum
  , by_type := st.map (fun pr =>
      (pr.1, (⟨(pr.2.map Prod.snd).sum, pr.2.length, mostCommon10 pr.2⟩ :
        EntTypeStats))) }

/-- The `data` payload of the entity module. -/
structure EntityData where
  themes : List EntTheme
  entity_statistics : EntStatsOut

/-- The instance state the entity module mutates on each call
(`_patterns` and `_use_spacy`); both are overwritten from the arguments
before use. -/
structure EntityState where
  patterns : List (String × String)
  use_spacy : Bool

/-- `EntityAnalysis.analyze`, with the instance state threaded explicitly. -/
def entityAnalyze (patMatchF : String → String → List String)
    (spacyEntsF : String → List (String × String))
    (pySetListF : List String → List String) (spacyAvail nlpLoaded : Bool)
    (st0 : EntityState) (c : FCorpus) (domain : Option DomainProfile)
    (use_spacy : Bool) : EntityState × AnalysisOutput EntityData :=
  let pats := load_patterns domain
  let annotated := annotate_corpus patMatchF spacyEntsF pySetListF use_spacy
    nlpLoaded pats c
  let stats := calculate_statistics annotated.2
  (⟨pats, use_spacy⟩, ⟨"entity", ⟨annotated.1, stats⟩,
    [("spacy_available", .b spacyAvail),
     ("spacy_used", .b (use_spacy && nlpLoaded)),
     ("pattern_count", .n pats.length)]⟩)

/-- Is an `Except` value a success? -/
def isOkE {ε α : Type} : Except ε α → Bool
  | .ok _ => true
  | .error _ => false

theorem analyze_sentence_ok (vaderF : VLex → String → VaderScores)
    (blobF : String → BlobSentiment) (va tb : Bool) (vader : Option VLex)
    (text : String) (h : (va && tb) = false ∨ vader.isSome = true) :
    isOkE (analyze_sentence vaderF blobF va tb vader text) = true := by
  unfold analyze_sentence
  cases hav : (va && tb)
  · simp [isOkE]
  · rcases h with h | h
    · rw [hav] at h; exact absurd h (by simp)
    · obtain ⟨L, rfl⟩ := Option.isSome_iff_exists.mp h
      simp [isOkE]

theorem analyzeAllAux_ok (vaderF : VLex → String → VaderScores)
    (blobF : String → BlobSentiment) (va tb : Bool) (vader : Option VLex)
    (c : FCorpus) (h : (va && tb) = false ∨ vader.isSome = true) :
    ∀ (sents : List FSentence) (n : Nat),
      isOkE (analyzeAllAux vaderF blobF va tb vader c n sents) = true := by
  intro sents
  induction sents with
  | nil => intro n; rfl
  | cons s rest ih =>
    intro n
    have hy := analyze_sentence_ok vaderF blobF va tb vader s.text h
    cases hy' : analyze_sentence vaderF blobF va tb vader s.text with
    | error e => rw [hy'] at hy; simp [isOkE] at hy
    | ok y =>
      have hl := ih (n + 1)
      cases hl' : analyzeAllAux vaderF blobF va tb vader c (n + 1) rest with
      | error e => rw [hl'] at hl; simp [isOkE] at hl
      | ok l =>
        simp only [analyzeAllAux, hy', hl']
        rfl

theorem updatedVader_isSome (st : Option VLex) (lexicon : List (String × ℚ))
    (h : st.isSome = true) : (updatedVader st lexicon).isSome = true := by
  cases st with
  | none => simp at h
  | some L =>
    by_cases he : lexicon.isEmpty <;> simp [updatedVader, he]

theorem sentimentRun_ok (vaderF : VLex → String → VaderScores)
    (blobF : String → BlobSentiment) (stdevF : List ℚ → ℚ) (va tb : Bool)
    (st' : Option VLex) (c : FCorpus) (lexicon : List (String × ℚ)) (pk : Nat)
    (hsome : st'.isSome = true) :
    isOkE (sentimentRun vaderF blobF stdevF va tb st' c lexicon pk) = true := by
  unfold sentimentRun
  have hdata := analyzeAllAux_ok vaderF blobF va tb st' c
    (Or.inr hsome) (iterSents c) 0
  cases hd : analyze_all_sentences vaderF blobF va tb st' c with
  | error e =>
    rw [show analyze_all_sentences vaderF blobF va tb st' c =
      analyzeAllAux vaderF blobF va tb st' c 0 (iterSents c) from rfl] at hd
    rw [hd] at hdata
    simp [isOkE] at hdata
  | ok data => rfl

theorem sentimentAnalyze_ok (vaderF : VLex → String → VaderScores)
    (blobF : String → BlobSentiment) (stdevF : List ℚ → ℚ) (va tb : Bool)
    (st : Option VLex) (c : FCorpus) (domain : Option DomainProfile) (pk : Nat)
    (h : va = true → st.isSome = true) :
    isOkE (sentimentAnalyze vaderF blobF stdevF va tb st c domain pk).2 = true := by
  unfold sentimentAnalyze
  cases hav : (va && tb)
  · simp [isOkE]
  · have hva : va = true := (Bool.and_eq_true_iff.mp hav).1
    simp only [if_true]
    exact sentimentRun_ok vaderF blobF stdevF va tb _ c _ pk
      (updatedVader_isSome st (loadLexicon domain) (h hva))

/-- Second-call state equality for the sentiment module: updating the VADER
lexicon with the same domain lexicon twice equals updating it once. -/
theorem updatedVader_idem (st : Option VLex) (lexicon : List (String × ℚ)) :
    updatedVader (updatedVader st lexicon) lexicon = updatedVader st lexicon := by
  cases st with
  | none => rfl
  | some L =>
    by_cases he : lexicon.isEmpty
    · simp [updatedVader, he]
    · simp [updatedVader, he, lexUpdate_idem]

/-- C7: when a required optional dependency is unavailable at runtime, each
analysis module's `analyze` still returns a valid `AnalysisOutput` whose
metadata records the unavailable capability, and never raises for that
reason: the sentiment module returns the degraded output with
`sentiment_available = False` and its `analyze` never produces an exception
under the constructor invariant (`_vader` is set whenever VADER imported);
the temporal and entity modules are total and always report
`spacy_available` in their metadata. -/
theorem C7_graceful_degradation :
    (∀ (vaderF : VLex → String → VaderScores) (blobF : String → BlobSentiment)
        (stdevF : List ℚ → ℚ) (va tb : Bool) (st : Option VLex) (c : FCorpus)
        (domain : Option DomainProfile) (pk : Nat),
      ((va && tb) = false →
        (sentimentAnalyze vaderF blobF stdevF va tb st c domain pk).2 =
          .ok ⟨"sentiment",
            .unavailable "vaderSentiment and textblob are required",
            [("sentiment_available", .b false)]⟩) ∧
      ((va = true → st.isSome = true) →
        isOkE (sentimentAnalyze vaderF blobF stdevF va tb st c domain pk).2 = true)) ∧
    (∀ (spacyAvail : Bool) (nlp : Option (String → TenseCounts)) (d : TDist)
        (c : FCorpus) (inc : Bool),
      (temporalAnalyze spacyAvail nlp d c inc).2.metadata =
        [("spacy_available", .b spacyAvail),
         ("spacy_model", if nlp.isSome then .s "en_core_web_sm" else .nul)]) ∧
    (∀ (patMatchF : String → String → List String)
        (spacyEntsF : String → List (String × String))
        (pySetListF : List String → List String) (spacyAvail nlpLoaded : Bool)
        (st0 : EntityState) (c : FCorpus) (domain : Option DomainProfile)
        (us : Bool),
      (entityAnalyze patMatchF spacyEntsF pySetListF spacyAvail nlpLoaded st0 c
          domain us).2.metadata =
        [("spacy_available", .b spacyAvail),
         ("spacy_used", .b (us && nlpLoaded)),
         ("pattern_count", .n (load_patterns domain).length)]) := by
  refine ⟨?_, ?_, ?_⟩
  · intro vaderF blobF stdevF va tb st c domain pk
    constructor
    · intro hun
      unfold sentimentAnalyze
      rw [hun]
      simp
    · exact sentimentAnalyze_ok vaderF blobF stdevF va tb st c domain pk
  · intro spacyAvail nlp d c inc
    rfl
  · intro patMatchF spacyEntsF pySetListF spacyAvail nlpLoaded st0 c domain us
    rfl

/-- Witness for `C7_graceful_degradation` at concrete inputs (both
libraries unavailable, empty corpus). -/
theorem C7_graceful_degradation_witness :
    ((sentimentAnalyze (fun _ _ => ⟨0, 0, 0, 1⟩) (fun _ => ⟨0, 0⟩) (fun _ => 0)
        false false none ⟨[]⟩ none 10).2 =
      .ok ⟨"sentiment", .unavailable "vaderSentiment and textblob are required",
        [("sentiment_available", .b false)]⟩) ∧
    isOkE (sentimentAnalyze (fun _ _ => ⟨0, 0, 0, 1⟩) (fun _ => ⟨0, 0⟩) (fun _ => 0)
        false false none ⟨[]⟩ none 10).2 = true :=
  ⟨(C7_graceful_degradation.1 (fun _ _ => ⟨0, 0, 0, 1⟩) (fun _ => ⟨0, 0⟩)
      (fun _ => 0) false false none ⟨[]⟩ none 10).1 rfl,
   (C7_graceful_degradation.1 (fun _ _ => ⟨0, 0, 0, 1⟩) (fun _ => ⟨0, 0⟩)
      (fun _ => 0) false false none ⟨[]⟩ none 10).2 (fun h => by cases h)⟩

/-- C8: for a fixed (corpus, domain, config) triple — and fixed external
library behaviour, which is constant within a process — calling a module's
`analyze` twice produces identical output data both times: the sentiment
module because the VADER lexicon update is idempotent, the temporal module
because `_tense_distribution` is cleared on entry, and the entity module
because `_patterns`/`_use_spacy` are recomputed from the arguments. -/
theorem C8_idempotent_analysis :
    (∀ (vaderF : VLex → String → VaderScores) (blobF : String → BlobSentiment)
        (stdevF : List ℚ → ℚ) (va tb : Bool) (st : Option VLex) (c : FCorpus)
        (domain : Option DomainProfile) (pk : Nat),
      (sentimentAnalyze vaderF blobF stdevF va tb
          ((sentimentAnalyze vaderF blobF stdevF va tb st c domain pk).1) c
          domain pk).2 =
        (sentimentAnalyze vaderF blobF stdevF va tb st c domain pk).2) ∧
    (∀ (spacyAvail : Bool) (nlp : Option (String → TenseCounts)) (d0 d1 : TDist)
        (c : FCorpus) (inc : Bool),
      (temporalAnalyze spacyAvail nlp d0 c inc).2 =
        (temporalAnalyze spacyAvail nlp d1 c inc).2) ∧
    (∀ (patMatchF : String → String → List String)
        (spacyEntsF : String → List (String × String))
        (pySetListF : List String → List String) (spacyAvail nlpLoaded : Bool)
        (s0 s1 : EntityState) (c : FCorpus) (domain : Option DomainProfile)
        (us : Bool),
      (entityAnalyze patMatchF spacyEntsF pySetListF spacyAvail nlpLoaded s0 c
          domain us).2 =
        (entityAnalyze patMatchF spacyEntsF pySetListF spacyAvail nlpLoaded s1 c
          domain us).2) := by
  refine ⟨?_, ?_, ?_⟩
  · intro vaderF blobF stdevF va tb st c domain pk
    cases hav : (va && tb)
    · simp [sentimentAnalyze, hav]
    · simp only [sentimentAnalyze, hav, if_true]
      rw [updatedVader_idem]
  · intro spacyAvail nlp d0 d1 c inc
    rfl
  · intro patMatchF spacyEntsF pySetListF spacyAvail nlpLoaded s0 s1 c domain us
    rfl

end LingFrame

namespace LingCli

/-!
### The CLI `analyze` command (`src/cli/main.py`)
-/

/-- Modelled from the spec: `registry.create_analysis(name)` instantiates a
registered module and fails with the `KeyError`-equivalent `NotFoundError`
when the name is unregistered (§4.6). -/
def create_analysis (registered : List String) (name : String) : Except String Unit :=
  if registered.contains name then .ok () else .error name

/-- The per-module loop of `cmd_analyze`: `try` create + analyze + export,
`except KeyError` prints the error and continues with the next module.
Returns the exported module names and the caught error names, in order. -/
def analyzeLoop (registered : List String) : List String → List String × List String
  | [] => ([], [])
  | m :: rest =>
    let r := analyzeLoop registered rest
    match create_analysis registered m with
    | .ok _ => (m :: r.1, r.2)
    | .error e => (r.1, e :: r.2)

/-- The observable outcome of one `cmd_analyze` invocation. -/
structure AnalyzeRun where
  exitCode : Nat
  exported : List String
  errors : List String
deriving DecidableEq, Repr

/-- `cmd_analyze`: exit 1 (via `load_project_config`'s `sys.exit(1)`) when
the project is not found; exit 1 when the atomized corpus file is missing;
otherwise run every requested module with the per-module `except KeyError`
handler and return 0. -/
def cmd_analyze (projectFound corpusExists : Bool) (registered : List String)
    (modulesToRun : List String) : AnalyzeRun :=
  if projectFound then
    if corpusExists then
      let r := analyzeLoop registered modulesToRun
      ⟨0, r.1, r.2⟩
    else ⟨1, [], []⟩
  else ⟨1, [], []⟩

theorem analyzeLoop_spec (registered : List String) :
    ∀ mods : List String,
      (analyzeLoop registered mods).1 =
        mods.filter (fun m => registered.contains m) ∧
      (analyzeLoop registered mods).2 =
        mods.filter (fun m => !registered.contains m) := by
  intro mods
  induction mods with
  | nil => exact ⟨rfl, rfl⟩
  | cons m rest ih =>
    obtain ⟨ih1, ih2⟩ := ih
    by_cases hm : m ∈ registered
    · simp [analyzeLoop, create_analysis, hm, ih1, ih2, List.filter_cons]
    · simp [analyzeLoop, create_analysis, hm, ih1, ih2, List.filter_cons]

/-- C9 counterexample: with the project found, the corpus present and the
requested analysis module name unregistered, `cmd_analyze` catches the
`KeyError` and exits with status 0, not 1 as claimed. -/
theorem C9_counterexample :
    (cmd_analyze true true
        ["semantic", "temporal", "sentiment", "entity", "evaluation"]
        ["nonexistent"]).exitCode = 0 ∧
    "nonexistent" ∉ ["semantic", "temporal", "sentiment", "entity", "evaluation"] := by
  decide

/-- C9 (amended): `cmd_analyze` exits 1 when the project is not found (and
when the atomized corpus is missing) and 0 otherwise — including when
requested module names are not registered: those modules' `KeyError`s are
caught per module, reported, and the command still exits 0, exporting
exactly the registered modules. -/
theorem C9_exit_codes (projectFound corpusExists : Bool)
    (registered modulesToRun : List String) :
    (cmd_analyze projectFound corpusExists registered modulesToRun).exitCode =
      (if projectFound && corpusExists then 0 else 1) ∧
    (cmd_analyze projectFound corpusExists registered modulesToRun).errors =
      (if projectFound && corpusExists then
        modulesToRun.filter (fun m => !registered.contains m) else []) ∧
    (cmd_analyze projectFound corpusExists registered modulesToRun).exported =
      (if projectFound && corpusExists then
        modulesToRun.filter (fun m => registered.contains m) else []) := by
  obtain ⟨h1, h2⟩ := analyzeLoop_spec registered modulesToRun
  cases projectFound <;> cases corpusExists <;>
    simp [cmd_analyze, h1, h2]

end LingCli
